import Mathlib

/-!
Verification of the OutfitBuilder service (`src/server.py`).

The embedding models, over `List Char` and `String`:

* the JSON decoder used by the service (`json.loads` restricted to the
  values the standard library accepts by default, including the
  `NaN` / `Infinity` / `-Infinity` extensions of the Python decoder);
* the fence-stripping pipeline
  `raw.strip().removeprefix("```json").removesuffix("```")`;
* the pydantic response models `OutfitItem`, `Outfit`, `OutfitsResponse`
  and their structural validation (pydantic v2 semantics: string fields
  accept exactly strings, list fields exactly lists, unknown keys are
  ignored, missing keys are an error);
* the prompt construction of `ask_gemini` (the fixed f-string template
  around `json.dumps(items, indent=2)`);
* the request handler `build_outfits` with its error mapping to
  HTTP 500 responses.

Unicode notes: Python strings may hold lone surrogates (from `\uXXXX`
escapes) which Lean `Char` cannot; the model maps such escapes through
`Char.ofNat`, which is the only point where the embedding narrows the
source.  `str.strip()` is modelled on the ASCII part of Python
whitespace; no claim depends on non-ASCII whitespace.
-/

namespace OutfitBuilder

/-- JSON whitespace characters accepted between tokens by `json.loads`. -/
def isJsonWs (c : Char) : Bool :=
  c = ' ' || c = '\t' || c = '\n' || c = '\r'

/-- ASCII characters stripped by Python `str.strip()` (`str.isspace`). -/
def pyIsSpace (c : Char) : Bool :=
  c = ' ' || c = '\t' || c = '\n' || c = '\r' || c = '\x0b' || c = '\x0c' ||
  c = '\x1c' || c = '\x1d' || c = '\x1e' || c = '\x1f' || c = '\x85' || c = '\xa0'

/-- Drop leading JSON whitespace, as the Python scanner does between tokens. -/
def skipWs : List Char → List Char
  | [] => []
  | c :: cs => if isJsonWs c then skipWs cs else c :: cs

/-- `str.strip()` on the character list of a Python string. -/
def pyStripL (cs : List Char) : List Char :=
  ((cs.dropWhile pyIsSpace).reverse.dropWhile pyIsSpace).reverse

/-- `str.removeprefix(p)`: drop `p` from the front when it is a prefix. -/
def removeprefixPy (p cs : List Char) : List Char :=
  if p.isPrefixOf cs then cs.drop p.length else cs

/-- `str.removesuffix(p)`: drop `p` from the back when it is a suffix. -/
def removesuffixPy (p cs : List Char) : List Char :=
  if p.isSuffixOf cs then cs.take (cs.length - p.length) else cs

/-- Expect the literal `lit` at the head of the input and drop it. -/
def dropLit (lit cs : List Char) : Option (List Char) :=
  if lit.isPrefixOf cs then some (cs.drop lit.length) else none

/-- Value of a hexadecimal digit, for `\uXXXX` string escapes. -/
def hexVal (c : Char) : Option Nat :=
  if '0' ≤ c ∧ c ≤ '9' then some (c.toNat - '0'.toNat)
  else if 'a' ≤ c ∧ c ≤ 'f' then some (c.toNat - 'a'.toNat + 10)
  else if 'A' ≤ c ∧ c ≤ 'F' then some (c.toNat - 'A'.toNat + 10)
  else none

/-- Python objects produced by `json.loads`.  Numbers keep their lexeme:
the service never computes with numbers, only passes them through, and
two distinct lexemes are distinct Python values for every context the
program puts them in.  Objects keep their members in parse order;
lookups take the last binding, matching `dict` construction. -/
inductive Json where
  | null : Json
  | bool : Bool → Json
  | num : String → Json
  | str : String → Json
  | arr : List Json → Json
  | obj : List (String × Json) → Json

/-- Escape map of the decoder: `\\X` for the short escapes. -/
def escMap (e : Char) : Option Char :=
  if e = '"' then some '"'
  else if e = '\\' then some '\\'
  else if e = '/' then some '/'
  else if e = 'b' then some '\x08'
  else if e = 'f' then some '\x0c'
  else if e = 'n' then some '\n'
  else if e = 'r' then some '\r'
  else if e = 't' then some '\t'
  else none

/-- Body of a JSON string literal, after the opening quote.  Returns the
decoded content and the input after the closing quote.  `strict=True`
of the Python decoder rejects raw control characters.  The fuel only
serves termination; every step consumes input, so any fuel above the
number of remaining characters is enough. -/
def parseStringBody : Nat → List Char → Option (List Char × List Char)
  | 0, _ => none
  | fuel + 1, cs =>
    match cs with
    | [] => none
    | c :: r =>
      if c = '"' then some ([], r)
      else if c = '\\' then
        match r with
        | [] => none
        | e :: r2 =>
          if e = 'u' then
            match r2 with
            | h1 :: h2 :: h3 :: h4 :: r3 =>
              match hexVal h1, hexVal h2, hexVal h3, hexVal h4 with
              | some a, some b, some d, some f =>
                match parseStringBody fuel r3 with
                | some (content, rest) =>
                  some (Char.ofNat (((a * 16 + b) * 16 + d) * 16 + f) :: content, rest)
                | none => none
              | _, _, _, _ => none
            | _ => none
          else
            match escMap e with
            | some ec =>
              match parseStringBody fuel r2 with
              | some (content, rest) => some (ec :: content, rest)
              | none => none
            | none => none
      else if c.toNat < 0x20 then none
      else
        match parseStringBody fuel r with
        | some (content, rest) => some (c :: content, rest)
        | none => none

/-- Integer part of the JSON number grammar: `0 | [1-9][0-9]*`. -/
def lexInt : List Char → Option (List Char × List Char)
  | [] => none
  | c :: r =>
    if c = '0' then some ([c], r)
    else if c.isDigit then some (c :: r.takeWhile Char.isDigit, r.dropWhile Char.isDigit)
    else none

/-- Optional fraction part `.[0-9]+`; consumed only when complete. -/
def lexFrac (cs : List Char) : List Char × List Char :=
  match cs with
  | '.' :: r =>
    if (r.takeWhile Char.isDigit) = [] then ([], cs)
    else ('.' :: r.takeWhile Char.isDigit, r.dropWhile Char.isDigit)
  | _ => ([], cs)

/-- Optional exponent part `[eE][+-]?[0-9]+`; consumed only when complete. -/
def lexExp (cs : List Char) : List Char × List Char :=
  match cs with
  | e :: r =>
    if e = 'e' ∨ e = 'E' then
      match r with
      | s :: r2 =>
        if s = '+' ∨ s = '-' then
          if (r2.takeWhile Char.isDigit) = [] then ([], cs)
          else (e :: s :: r2.takeWhile Char.isDigit, r2.dropWhile Char.isDigit)
        else
          if (r.takeWhile Char.isDigit) = [] then ([], cs)
          else (e :: r.takeWhile Char.isDigit, r.dropWhile Char.isDigit)
      | [] => ([], cs)
    else ([], cs)
  | [] => ([], cs)

/-- Maximal-munch number lexeme, the `NUMBER_RE` regex of the Python
decoder: `-?(0|[1-9][0-9]*)(\.[0-9]+)?([eE][+-]?[0-9]+)?`. -/
def lexNumber (cs : List Char) : Option (List Char × List Char) :=
  match cs with
  | '-' :: r =>
    match lexInt r with
    | some (ilex, r1) =>
      let fr := lexFrac r1
      let ex := lexExp fr.2
      some ('-' :: ilex ++ fr.1 ++ ex.1, ex.2)
    | none => none
  | _ =>
    match lexInt cs with
    | some (ilex, r1) =>
      let fr := lexFrac r1
      let ex := lexExp fr.2
      some (ilex ++ fr.1 ++ ex.1, ex.2)
    | none => none

mutual

/-- One JSON value at the head of the input (no leading whitespace),
returning the value and the unconsumed input.  Mirrors the scanner of
the Python `json` module, including the non-standard constants. -/
def parseValue : Nat → List Char → Option (Json × List Char)
  | 0, _ => none
  | fuel + 1, cs =>
    match cs with
    | [] => none
    | c :: r =>
      if c = '{' then
        match skipWs r with
        | '}' :: r2 => some (Json.obj [], r2)
        | r1 =>
          match parseObjLoop fuel r1 with
          | some (kvs, rest) => some (Json.obj kvs, rest)
          | none => none
      else if c = '[' then
        match skipWs r with
        | ']' :: r2 => some (Json.arr [], r2)
        | r1 =>
          match parseArrLoop fuel r1 with
          | some (vs, rest) => some (Json.arr vs, rest)
          | none => none
      else if c = '"' then
        match parseStringBody fuel r with
        | some (content, rest) => some (Json.str (String.mk content), rest)
        | none => none
      else if c = 't' then
        match dropLit ['r', 'u', 'e'] r with
        | some rest => some (Json.bool true, rest)
        | none => none
      else if c = 'f' then
        match dropLit ['a', 'l', 's', 'e'] r with
        | some rest => some (Json.bool false, rest)
        | none => none
      else if c = 'n' then
        match dropLit ['u', 'l', 'l'] r with
        | some rest => some (Json.null, rest)
        | none => none
      else if c = 'N' then
        match dropLit ['a', 'N'] r with
        | some rest => some (Json.num "NaN", rest)
        | none => none
      else if c = 'I' then
        match dropLit ['n', 'f', 'i', 'n', 'i', 't', 'y'] r with
        | some rest => some (Json.num "Infinity", rest)
        | none => none
      else
        match lexNumber (c :: r) with
        | some (lex, rest) => some (Json.num (String.mk lex), rest)
        | none =>
          if c = '-' then
            match dropLit ['I', 'n', 'f', 'i', 'n', 'i', 't', 'y'] r with
            | some rest => some (Json.num "-Infinity", rest)
            | none => none
          else none

/-- Elements of a non-empty array: value at the head, then `,` more
elements or the closing `]`. -/
def parseArrLoop : Nat → List Char → Option (List Json × List Char)
  | 0, _ => none
  | fuel + 1, cs =>
    match parseValue fuel cs with
    | none => none
    | some (v, r) =>
      match skipWs r with
      | ']' :: r2 => some ([v], r2)
      | ',' :: r2 =>
        match parseArrLoop fuel (skipWs r2) with
        | some (vs, rest) => some (v :: vs, rest)
        | none => none
      | _ => none

/-- Members of a non-empty object: `"key" : value`, then `,` more
members or the closing `}`. -/
def parseObjLoop : Nat → List Char → Option (List (String × Json) × List Char)
  | 0, _ => none
  | fuel + 1, cs =>
    match cs with
    | '"' :: r =>
      match parseStringBody fuel r with
      | none => none
      | some (key, r1) =>
        match skipWs r1 with
        | ':' :: r3 =>
          match parseValue fuel (skipWs r3) with
          | none => none
          | some (v, r4) =>
            match skipWs r4 with
            | '}' :: r6 => some ([(String.mk key, v)], r6)
            | ',' :: r6 =>
              match parseObjLoop fuel (skipWs r6) with
              | some (kvs, rest) => some ((String.mk key, v) :: kvs, rest)
              | none => none
            | _ => none
        | _ => none
    | _ => none

end

/-- `json.loads` on a character list: skip leading whitespace, read one
value, require only whitespace after it.  `none` is a
`json.JSONDecodeError`. -/
def loadsL (cs : List Char) : Option Json :=
  match parseValue (cs.length + 1) (skipWs cs) with
  | some (v, rest) => if skipWs rest = [] then some v else none
  | none => none

/-- `json.loads` on a Python string. -/
def loads (s : String) : Option Json :=
  loadsL s.data

/-- The fence-stripping pipeline of `build_outfits`:
`raw.strip().removeprefix("```json").removesuffix("```")`. -/
def cleanJsonL (raw : List Char) : List Char :=
  removesuffixPy "```".data (removeprefixPy "```json".data (pyStripL raw))

/-- Cleaning followed by decoding: lines 219-220 of `src/server.py`. -/
def cleanAndParse (raw : String) : Option Json :=
  loadsL (cleanJsonL raw.data)

/-- Characters able to extend a number lexeme to the left of the
maximal-munch boundary; anything else cannot change how a number in
front of it is lexed. -/
def numCont (c : Char) : Bool :=
  c.isDigit || c = '.' || c = 'e' || c = 'E' || c = '+' || c = '-'

/-- Continuations that cannot change the token in front of them:
empty, or starting with a character that extends no number. -/
def extStopper (l : List Char) : Prop :=
  l = [] ∨ ∃ c t, l = c :: t ∧ numCont c = false

/-- Characters able to start a JSON value for this decoder. -/
def valueStart (c : Char) : Prop :=
  c = '{' ∨ c = '[' ∨ c = '"' ∨ c = 't' ∨ c = 'f' ∨ c = 'n' ∨ c = 'N' ∨
  c = 'I' ∨ c = '-' ∨ c.isDigit = true

instance (c : Char) : Decidable (valueStart c) := by
  unfold valueStart
  infer_instance

/-- Shape of a successful `parseValue` run: the input splits into a
consumed lexeme and the rest; the lexeme starts with a value-start
character, ends with a character that is neither whitespace nor a
backtick, and re-parses on its own in front of any continuation that
cannot extend it, at any sufficient fuel. -/
def ValP (cs : List Char) (v : Json) (rest : List Char) : Prop :=
  ∃ consumed, cs = consumed ++ rest ∧
    (∃ c t, consumed = c :: t ∧ valueStart c) ∧
    (∃ t c, consumed = t ++ [c] ∧ pyIsSpace c = false ∧ (c = '`' → False)) ∧
    ∀ g ext, consumed.length < g → extStopper ext →
      parseValue g (consumed ++ ext) = some (v, ext)

/-- Shape of a successful `parseArrLoop` run; the consumed part begins
with a value and ends with the closing bracket. -/
def ArrP (cs : List Char) (vs : List Json) (rest : List Char) : Prop :=
  ∃ consumed, cs = consumed ++ rest ∧
    (∃ c t, consumed = c :: t ∧ valueStart c) ∧
    (∃ t, consumed = t ++ [']']) ∧
    ∀ g ext, consumed.length < g →
      parseArrLoop g (consumed ++ ext) = some (vs, ext)

/-- Shape of a successful `parseObjLoop` run; the consumed part begins
with a key string and ends with the closing brace. -/
def ObjP (cs : List Char) (kvs : List (String × Json)) (rest : List Char) : Prop :=
  ∃ consumed, cs = consumed ++ rest ∧
    (∃ t, consumed = '"' :: t) ∧
    (∃ t, consumed = t ++ ['}']) ∧
    ∀ g ext, consumed.length < g →
      parseObjLoop g (consumed ++ ext) = some (kvs, ext)

/-! ## Data model: the pydantic input and output models -/

/-- Input record: one clothing item of the wishlist. -/
structure WishlistItem where
  name : String
  description : String
  productId : String
deriving DecidableEq

/-- Output record: item reference inside an outfit (no description). -/
structure OutfitItem where
  name : String
  productId : String
deriving DecidableEq

/-- Output record: one outfit. -/
structure Outfit where
  outfitId : String
  items : List OutfitItem
deriving DecidableEq

/-- The full response body model. -/
structure OutfitsResponse where
  outfits : List Outfit
deriving DecidableEq

/-! ## Prompt construction (`ask_gemini`, lines 117-187) -/

/-- Lowercase hexadecimal digit. -/
def hexDigit (n : Nat) : Char :=
  if n < 10 then Char.ofNat ('0'.toNat + n) else Char.ofNat ('a'.toNat + n - 10)

/-- Four lowercase hexadecimal digits, as in `\uXXXX`. -/
def hex4 (n : Nat) : List Char :=
  [hexDigit (n / 4096 % 16), hexDigit (n / 256 % 16), hexDigit (n / 16 % 16), hexDigit (n % 16)]

/-- Escaping of one character by `json.dumps` with the default
`ensure_ascii=True`: short escapes for the common controls, `\uXXXX`
for other controls and for everything outside printable ASCII,
surrogate pairs above the basic plane. -/
def pyJsonEscape (c : Char) : List Char :=
  if c = '"' then ['\\', '"']
  else if c = '\\' then ['\\', '\\']
  else if c = '\n' then ['\\', 'n']
  else if c = '\r' then ['\\', 'r']
  else if c = '\t' then ['\\', 't']
  else if c = '\x08' then ['\\', 'b']
  else if c = '\x0c' then ['\\', 'f']
  else if c.toNat < 0x20 ∨ 0x7e < c.toNat then
    if 0x10000 ≤ c.toNat then
      '\\' :: 'u' :: hex4 (0xd800 + (c.toNat - 0x10000) / 1024) ++
        '\\' :: 'u' :: hex4 (0xdc00 + (c.toNat - 0x10000) % 1024)
    else '\\' :: 'u' :: hex4 c.toNat
  else [c]

/-- `json.dumps` of a Python string (the quoted, escaped literal). -/
def jsonDumpStr (s : String) : String :=
  String.mk ('"' :: (s.data.map pyJsonEscape).flatten ++ ['"'])

/-- One entry of `json.dumps([item.dict() for item in items], indent=2)`:
the pretty-printed dict of a `WishlistItem`, at list nesting depth 1. -/
def dumpItemEntry (it : WishlistItem) : String :=
  "\x7b\n    \"name\": " ++ jsonDumpStr it.name ++
  ",\n    \"description\": " ++ jsonDumpStr it.description ++
  ",\n    \"productId\": " ++ jsonDumpStr it.productId ++ "\n  \x7d"

/-- The entries joined by the item separator of `indent=2` output. -/
def dumpEntries : List WishlistItem → String
  | [] => ""
  | [it] => dumpItemEntry it
  | it :: rest => dumpItemEntry it ++ ",\n  " ++ dumpEntries rest

/-- `json.dumps([item.dict() for item in items], indent=2)`. -/
def dumpWishlist : List WishlistItem → String
  | [] => "[]"
  | it :: rest => "[\n  " ++ dumpEntries (it :: rest) ++ "\n]"

/-- Opening paragraph of the prompt template. -/
def promptIntro : String :=
  "\nYou are an expert fashion stylist AI assistant. Your sole purpose is to create stylish and coherent outfits from a given list of clothing items.\n\n"

/-- The fixed instruction rules of the prompt template. -/
def promptRules : String :=
  "You MUST follow these rules strictly:\n1.  Analyze the provided \"Wishlist\" JSON data.\n2.  Create one or more complete outfits by combining items that complement each other.\n3.  Your response MUST BE a valid JSON array of outfit objects and nothing else.\n4.  Do NOT include any explanatory text, comments, markdown formatting (like ```json), or any characters before or after the JSON array.\n\n"

/-- The output-schema example of the prompt template. -/
def promptSchema : String :=
  "The output JSON array must conform to the following structure:\n[\n  \x7b\n    \"outfitId\": \"A unique string identifier for the outfit (e.g., \x27outfit_1\x27).\",\n    \"items\": [\n      \x7b\n        \"name\": \"The name of the item from the wishlist.\",\n        \"productId\": \"The corresponding productId from the wishlist.\"\n      \x7d\n    ]\n  \x7d\n]\n\n"

/-- The worked example of the prompt template. -/
def promptExample : String :=
  "Here is an example:\n---\nWishlist:\n[\n  \x7b\n    \"name\": \"Classic Black T-shirt\",\n    \"description\": \"100% cotton crewneck\",\n    \"productId\": \"B-TS-001\"\n  \x7d,\n  \x7b\n    \"name\": \"Slim-fit Chinos\",\n    \"description\": \"Beige color, stretch fabric\",\n    \"productId\": \"P-CH-005\"\n  \x7d\n]\n\nYour Response:\n[\n  \x7b\n    \"outfitId\": \"outfit_1\",\n    \"items\": [\n      \x7b\n        \"name\": \"Classic Black T-shirt\",\n        \"productId\": \"B-TS-001\"\n      \x7d,\n      \x7b\n        \"name\": \"Slim-fit Chinos\",\n        \"productId\": \"P-CH-005\"\n      \x7d\n    ]\n  \x7d\n]\n---\n\n"

/-- The lead-in before the spliced wishlist JSON. -/
def promptLeadIn : String :=
  "Now, create outfits based on this wishlist:\n\nWishlist:\n"

/-- Everything of the template before `{wishlist_json_str}`. -/
def promptPrefix : String :=
  promptIntro ++ promptRules ++ promptSchema ++ promptExample ++ promptLeadIn

/-- Everything of the template after `{wishlist_json_str}`. -/
def promptSuffix : String :=
  "\n\nYour Response:\n"

/-- The prompt sent to the model: the fixed template around the
pretty-printed wishlist (`ask_gemini`, lines 122-187). -/
def buildPrompt (items : List WishlistItem) : String :=
  promptPrefix ++ dumpWishlist items ++ promptSuffix

/-! ## Schema validation (`OutfitsResponse(outfits=outfits_data)`)

Pydantic v2 semantics on JSON-decoded input: a model takes a dict,
required fields must be present, string fields accept exactly strings,
list fields exactly lists, unknown keys are ignored.  Validation stops
at the first error here; the program only forwards the diagnostic text
inside one message, so the granularity of the diagnostic is not
observable to any claim. -/

/-- Lookup in a decoded object, last binding wins as in a Python dict. -/
def objGet (kvs : List (String × Json)) (key : String) : Option Json :=
  kvs.foldl (fun acc kv => if kv.1 = key then some kv.2 else acc) none

/-- Validate one member of `items` against `OutfitItem`. -/
def validateOutfitItem : Json → Except String OutfitItem
  | Json.obj kvs =>
    match objGet kvs "name" with
    | some (Json.str n) =>
      match objGet kvs "productId" with
      | some (Json.str p) => Except.ok ⟨n, p⟩
      | some _ => Except.error "items.productId: Input should be a valid string"
      | none => Except.error "items.productId: Field required"
    | some _ => Except.error "items.name: Input should be a valid string"
    | none => Except.error "items.name: Field required"
  | _ => Except.error "items: Input should be a valid dictionary"

/-- Validate the elements of an `items` list. -/
def validateItemList : List Json → Except String (List OutfitItem)
  | [] => Except.ok []
  | j :: js =>
    match validateOutfitItem j with
    | Except.error e => Except.error e
    | Except.ok it =>
      match validateItemList js with
      | Except.error e => Except.error e
      | Except.ok its => Except.ok (it :: its)

/-- Validate one member of `outfits` against `Outfit`. -/
def validateOutfit : Json → Except String Outfit
  | Json.obj kvs =>
    match objGet kvs "outfitId" with
    | some (Json.str oid) =>
      match objGet kvs "items" with
      | some (Json.arr xs) =>
        match validateItemList xs with
        | Except.error e => Except.error e
        | Except.ok its => Except.ok ⟨oid, its⟩
      | some _ => Except.error "items: Input should be a valid list"
      | none => Except.error "items: Field required"
    | some _ => Except.error "outfitId: Input should be a valid string"
    | none => Except.error "outfitId: Field required"
  | _ => Except.error "outfits: Input should be a valid dictionary"

/-- Validate the elements of the `outfits` list. -/
def validateOutfitList : List Json → Except String (List Outfit)
  | [] => Except.ok []
  | j :: js =>
    match validateOutfit j with
    | Except.error e => Except.error e
    | Except.ok o =>
      match validateOutfitList js with
      | Except.error e => Except.error e
      | Except.ok os => Except.ok (o :: os)

/-- `OutfitsResponse(outfits=outfits_data)` on the decoded value; an
`Except.error` is a pydantic `ValidationError`. -/
def validateOutfits : Json → Except String OutfitsResponse
  | Json.arr os =>
    match validateOutfitList os with
    | Except.error e => Except.error e
    | Except.ok outs => Except.ok ⟨outs⟩
  | _ => Except.error "outfits: Input should be a valid list"

/-! ## Response serialization (FastAPI `response_model=OutfitsResponse`) -/

/-- Serialized `OutfitItem`, fields in declaration order. -/
def renderItem (it : OutfitItem) : Json :=
  Json.obj [("name", Json.str it.name), ("productId", Json.str it.productId)]

/-- Serialized `Outfit`. -/
def renderOutfit (o : Outfit) : Json :=
  Json.obj [("outfitId", Json.str o.outfitId), ("items", Json.arr (o.items.map renderItem))]

/-- Serialized response body `{"outfits": [...]}`. -/
def renderResponse (r : OutfitsResponse) : Json :=
  Json.obj [("outfits", Json.arr (r.outfits.map renderOutfit))]

/-! ## The request handler (`build_outfits`, lines 208-240) -/

/-- Outcome of the outbound provider call, the only external input of
one request besides the wishlist.  `success` carries
`[choice.message.content for choice in response.choices]`; `raise` is
any exception escaping the call (transport, auth, quota), carrying
`str(e)`.  Transport exceptions are neither `json.JSONDecodeError` nor
pydantic `ValidationError`, so they reach the final `except Exception`
clause. -/
inductive ProviderOutcome where
  | success : List String → ProviderOutcome
  | raise : String → ProviderOutcome

/-- Result of the handler before FastAPI turns it into HTTP: either a
validated response model or an `HTTPException(status, detail)`. -/
inductive HandlerResult where
  | ok : OutfitsResponse → HandlerResult
  | err : Nat → String → HandlerResult
deriving DecidableEq

/-- Detail of the `HTTPException` raised by `ask_gemini` when
`response.choices` is empty (line 201). -/
def emptyRespDetail : String := "Gemini API returned an empty response."

/-- Detail used for `json.JSONDecodeError` (lines 227-231). -/
def decodeFailDetail : String := "Failed to decode JSON from Gemini\x27s response."

/-- Prefix of the detail used for pydantic `ValidationError`
(lines 232-237); the diagnostic is appended by the f-string. -/
def schemaFailPrefix : String := "Gemini\x27s JSON output does not match the required format: "

/-- The `/build-outfits` handler as a function of the provider outcome.
The wishlist argument only shapes the prompt, which is part of the
provider call; the control flow after the call depends only on the
outcome, which this function follows clause by clause.  When
`response.choices` is empty, `ask_gemini` raises
`HTTPException(500, ...)`, which the `except Exception` clause of
`build_outfits` re-wraps with `detail=str(e)`; `str` of a starlette
`HTTPException` is `f"{status_code}: {detail}"`. -/
def build_outfits : ProviderOutcome → HandlerResult
  | ProviderOutcome.raise msg => HandlerResult.err 500 msg
  | ProviderOutcome.success [] => HandlerResult.err 500 ("500: " ++ emptyRespDetail)
  | ProviderOutcome.success (raw :: _) =>
    match cleanAndParse raw with
    | none => HandlerResult.err 500 decodeFailDetail
    | some data =>
      match validateOutfits data with
      | Except.error diag => HandlerResult.err 500 (schemaFailPrefix ++ diag)
      | Except.ok resp => HandlerResult.ok resp

/-- HTTP status and JSON body FastAPI produces from the handler result:
200 with the serialized model, or the error status with
`{"detail": message}`. -/
def httpResponse : HandlerResult → Nat × Json
  | HandlerResult.ok resp => (200, renderResponse resp)
  | HandlerResult.err status detail => (status, Json.obj [("detail", Json.str detail)])

/-- End-to-end request handling for a given provider outcome. -/
def handle (p : ProviderOutcome) : Nat × Json :=
  httpResponse (build_outfits p)

/-! ## Derived shape predicates used by the claims -/

/-- The OutfitsResponse schema as the specification states it: every
outfit has a string `outfitId` and an `items` list; every item has
string `name` and `productId`.  Extra keys are not constrained. -/
def specItem : Json → Bool
  | Json.obj kvs =>
    (match objGet kvs "name" with
     | some (Json.str _) => true
     | _ => false) &&
    (match objGet kvs "productId" with
     | some (Json.str _) => true
     | _ => false)
  | _ => false

/-- Spec-level shape of one outfit. -/
def specOutfit : Json → Bool
  | Json.obj kvs =>
    (match objGet kvs "outfitId" with
     | some (Json.str _) => true
     | _ => false) &&
    (match objGet kvs "items" with
     | some (Json.arr xs) => xs.all specItem
     | _ => false)
  | _ => false

/-- Spec-level shape of the whole decoded value. -/
def specConforms : Json → Bool
  | Json.arr os => os.all specOutfit
  | _ => false

mutual

/-- Does the key `k` appear in any object anywhere inside the value? -/
def hasKeyJ (k : String) : Json → Bool
  | Json.obj kvs => hasKeyKvs k kvs
  | Json.arr xs => hasKeyArr k xs
  | _ => false

/-- Key search through array elements. -/
def hasKeyArr (k : String) : List Json → Bool
  | [] => false
  | j :: js => hasKeyJ k j || hasKeyArr k js

/-- Key search through object members. -/
def hasKeyKvs (k : String) : List (String × Json) → Bool
  | [] => false
  | kv :: rest => kv.1 = k || hasKeyJ k kv.2 || hasKeyKvs k rest

end

/-! ## Character class facts -/

theorem pyIsSpace_of_jsonWs {c : Char} (h : isJsonWs c = true) : pyIsSpace c = true := by
  simp only [isJsonWs, Bool.or_eq_true, decide_eq_true_eq] at h
  rcases h with ((h | h) | h) | h <;> subst h <;> decide

theorem jsonWs_false_of_pySpace_false {c : Char} (h : pyIsSpace c = false) :
    isJsonWs c = false := by
  cases hj : isJsonWs c with
  | false => rfl
  | true => rw [pyIsSpace_of_jsonWs hj] at h; exact absurd h (by simp)

theorem isDigit_false_of_pyIsSpace {c : Char} (h : pyIsSpace c = true) : c.isDigit = false := by
  simp only [pyIsSpace, Bool.or_eq_true, decide_eq_true_eq] at h
  rcases h with ((((((((((h | h) | h) | h) | h) | h) | h) | h) | h) | h) | h) | h <;>
    subst h <;> decide

theorem valueStart_facts {c : Char} (h : valueStart c) :
    pyIsSpace c = false ∧ isJsonWs c = false ∧ (c = '`' → False) ∧
    (c = ']' → False) ∧ (c = '}' → False) := by
  have hsp : pyIsSpace c = false := by
    rcases h with h | h | h | h | h | h | h | h | h | h
    case inr.inr.inr.inr.inr.inr.inr.inr.inr =>
      cases hs : pyIsSpace c with
      | false => rfl
      | true => rw [isDigit_false_of_pyIsSpace hs] at h; exact absurd h (by simp)
    all_goals (subst h; decide)
  refine ⟨hsp, jsonWs_false_of_pySpace_false hsp, ?_, ?_, ?_⟩ <;>
    · intro he
      rcases h with h | h | h | h | h | h | h | h | h | h <;>
        (subst he; revert h; decide)

theorem numCont_false_of_jsonWs {c : Char} (h : isJsonWs c = true) : numCont c = false := by
  simp only [isJsonWs, Bool.or_eq_true, decide_eq_true_eq] at h
  rcases h with ((h | h) | h) | h <;> subst h <;> decide

theorem extStopper_nil : extStopper [] := Or.inl rfl

theorem extStopper_cons {c : Char} {t : List Char} (h : numCont c = false) :
    extStopper (c :: t) := Or.inr ⟨c, t, rfl, h⟩

/-! ## List helper lemmas -/

theorem dropWhile_append_all {α : Type} {p : α → Bool} {a : List α}
    (h : ∀ c ∈ a, p c = true) (l : List α) :
    (a ++ l).dropWhile p = l.dropWhile p := by
  induction a with
  | nil => rfl
  | cons x xs ih =>
    have hx : p x = true := h x (List.mem_cons_self x xs)
    simp only [List.cons_append, List.dropWhile_cons, hx, if_true]
    exact ih (fun c hc => h c (List.mem_cons_of_mem x hc))

theorem dropWhile_cons_false {α : Type} {p : α → Bool} {c : α} (l : List α)
    (h : p c = false) : (c :: l).dropWhile p = c :: l := by
  simp [List.dropWhile_cons, h]

theorem takeWhile_append_stop {α : Type} {p : α → Bool} {a l : List α}
    (ha : ∀ c ∈ a, p c = true)
    (hl : l = [] ∨ ∃ c t, l = c :: t ∧ p c = false) :
    (a ++ l).takeWhile p = a ∧ (a ++ l).dropWhile p = l := by
  induction a with
  | nil =>
    rcases hl with rfl | ⟨c, t, rfl, hc⟩
    · exact ⟨rfl, rfl⟩
    · simp [List.takeWhile_cons, List.dropWhile_cons, hc]
  | cons x xs ih =>
    have hx : p x = true := ha x (List.mem_cons_self x xs)
    have := ih (fun c hc => ha c (List.mem_cons_of_mem x hc))
    simp only [List.cons_append, List.takeWhile_cons, List.dropWhile_cons, hx, if_true]
    exact ⟨by rw [this.1], this.2⟩

theorem skipWs_all {l : List Char} (h : ∀ c ∈ l, isJsonWs c = true) : skipWs l = [] := by
  induction l with
  | nil => rfl
  | cons c cs ih =>
    have hc := h c (List.mem_cons_self c cs)
    simp only [skipWs, hc, if_true]
    exact ih (fun d hd => h d (List.mem_cons_of_mem c hd))

theorem skipWs_nil_all {l : List Char} (h : skipWs l = []) :
    ∀ c ∈ l, isJsonWs c = true := by
  induction l with
  | nil => intro c hc; exact absurd hc (List.not_mem_nil c)
  | cons c cs ih =>
    intro d hd
    by_cases hc : isJsonWs c = true
    · simp only [skipWs, hc, if_true] at h
      rcases List.mem_cons.mp hd with rfl | hd'
      · exact hc
      · exact ih h d hd'
    · simp only [skipWs, hc, if_false] at h
      exact absurd h (by simp)

theorem skipWs_append_all {ws : List Char} (h : ∀ c ∈ ws, isJsonWs c = true)
    (l : List Char) : skipWs (ws ++ l) = skipWs l := by
  induction ws with
  | nil => rfl
  | cons c cs ih =>
    have hc := h c (List.mem_cons_self c cs)
    simp only [List.cons_append, skipWs, hc, if_true]
    exact ih (fun d hd => h d (List.mem_cons_of_mem c hd))

theorem skipWs_cons_false {c : Char} {l : List Char} (h : isJsonWs c = false) :
    skipWs (c :: l) = c :: l := by
  simp [skipWs, h]

theorem skipWs_decomp (l : List Char) :
    ∃ ws, l = ws ++ skipWs l ∧ ∀ c ∈ ws, isJsonWs c = true := by
  induction l with
  | nil => exact ⟨[], rfl, fun c hc => absurd hc (List.not_mem_nil c)⟩
  | cons c cs ih =>
    by_cases hc : isJsonWs c = true
    · obtain ⟨ws, hcs, hws⟩ := ih
      refine ⟨c :: ws, ?_, ?_⟩
      · simp only [skipWs, hc, if_true, List.cons_append]
        exact congrArg (c :: ·) hcs
      · intro d hd
        rcases List.mem_cons.mp hd with rfl | hd'
        · exact hc
        · exact hws d hd'
    · have hc' : isJsonWs c = false := by simpa using hc
      exact ⟨[], by simp [skipWs_cons_false hc'], fun d hd => absurd hd (List.not_mem_nil d)⟩

/-! ## Prefix, suffix and strip lemmas -/

theorem isPrefixOf_append_self (p l : List Char) : p.isPrefixOf (p ++ l) = true :=
  List.isPrefixOf_iff_prefix.mpr (List.prefix_append p l)

theorem removeprefixPy_append (p l : List Char) : removeprefixPy p (p ++ l) = l := by
  simp [removeprefixPy, isPrefixOf_append_self, List.drop_left]

theorem isSuffixOf_append_self (p l : List Char) : p.isSuffixOf (l ++ p) = true :=
  List.isSuffixOf_iff_suffix.mpr ⟨l, rfl⟩

theorem removesuffixPy_append (p l : List Char) : removesuffixPy p (l ++ p) = l := by
  simp only [removesuffixPy, isSuffixOf_append_self, if_true, List.length_append]
  rw [Nat.add_sub_cancel, List.take_left]

theorem suffix_last_eq {α : Type} {x y : List α} {a b : α}
    (h : (x ++ [a]) <:+ (y ++ [b])) : a = b := by
  obtain ⟨u, hu⟩ := h
  have h1 : (u ++ (x ++ [a])).getLast? = some a := by
    rw [← List.append_assoc]
    exact List.getLast?_concat _
  have h2 : (y ++ [b]).getLast? = some b := List.getLast?_concat _
  rw [hu, h2] at h1
  exact (Option.some_inj.mp h1).symm

theorem removesuffixPy_backtick_free {c : Char} {t : List Char} (h : (c = '`') → False) :
    removesuffixPy "```".data (t ++ [c]) = t ++ [c] := by
  rw [removesuffixPy, if_neg]
  intro hs
  have hsuf : "```".data <:+ (t ++ [c]) := List.isSuffixOf_iff_suffix.mp hs
  have : "```".data = ['`', '`'] ++ ['`'] := rfl
  rw [this] at hsuf
  exact h (suffix_last_eq hsuf).symm

theorem removeprefixPy_backtick_free {c : Char} {t : List Char} (h : (c = '`') → False) :
    removeprefixPy "```json".data (c :: t) = c :: t := by
  rw [removeprefixPy, if_neg]
  intro hp
  have hpre : "```json".data <+: (c :: t) := List.isPrefixOf_iff_prefix.mp hp
  obtain ⟨u, hu⟩ := hpre
  rw [show "```json".data = '`' :: "``json".data from rfl, List.cons_append] at hu
  injection hu with h1 h2
  exact h h1.symm

theorem pyStripL_spec {a x b : List Char}
    (ha : ∀ c ∈ a, pyIsSpace c = true) (hb : ∀ c ∈ b, pyIsSpace c = true)
    (hhead : ∃ d t, x = d :: t ∧ pyIsSpace d = false)
    (hlast : ∃ t e, x = t ++ [e] ∧ pyIsSpace e = false) :
    pyStripL (a ++ x ++ b) = x := by
  obtain ⟨d, t, hx1, hd⟩ := hhead
  obtain ⟨t', e, hx2, he⟩ := hlast
  have h1 : (a ++ x ++ b).dropWhile pyIsSpace = x ++ b := by
    rw [List.append_assoc, dropWhile_append_all ha]
    rw [hx1, List.cons_append, dropWhile_cons_false _ hd, ← List.cons_append, ← hx1]
  have hx2r : x.reverse = e :: t'.reverse := by rw [hx2]; simp
  have h2 : (x ++ b).reverse.dropWhile pyIsSpace = x.reverse := by
    rw [List.reverse_append, dropWhile_append_all (fun c hc => hb c (List.mem_reverse.mp hc))]
    rw [hx2r, dropWhile_cons_false _ he]
  rw [pyStripL, h1, h2, List.reverse_reverse]

/-! ## Number lexer completeness -/

theorem ends_digit {l : List Char} (h : l ≠ []) (hall : ∀ c ∈ l, c.isDigit = true) :
    ∃ t d, l = t ++ [d] ∧ d.isDigit = true :=
  ⟨l.dropLast, l.getLast h, (List.dropLast_append_getLast h).symm,
    hall _ (List.getLast_mem h)⟩

theorem extStopper_digit {ext : List Char} (h : extStopper ext) :
    ext = [] ∨ ∃ c t, ext = c :: t ∧ c.isDigit = false := by
  rcases h with rfl | ⟨c, t, rfl, hc⟩
  · exact Or.inl rfl
  · refine Or.inr ⟨c, t, rfl, ?_⟩
    simp only [numCont, Bool.or_eq_false_iff] at hc
    exact hc.1.1.1.1.1

theorem numCont_false_facts {c : Char} (hc : numCont c = false) :
    c.isDigit = false ∧ (c = '.' → False) ∧ (c = 'e' → False) ∧ (c = 'E' → False) := by
  simp only [numCont, Bool.or_eq_false_iff, decide_eq_false_iff_not] at hc
  exact ⟨hc.1.1.1.1.1, hc.1.1.1.1.2, hc.1.1.1.2, hc.1.1.2⟩

theorem lexInt_complete {cs ilex rest : List Char} (h : lexInt cs = some (ilex, rest)) :
    cs = ilex ++ rest ∧ ilex ≠ [] ∧ (∀ c ∈ ilex, c.isDigit = true) ∧
    ∀ k, (k = [] ∨ ∃ c t, k = c :: t ∧ c.isDigit = false) →
      lexInt (ilex ++ k) = some (ilex, k) := by
  cases cs with
  | nil => exact absurd h (by simp [lexInt])
  | cons c r =>
    by_cases hc0 : c = '0'
    · subst hc0
      simp only [lexInt, if_pos rfl, if_true, Option.some.injEq, Prod.mk.injEq] at h
      obtain ⟨h1, h2⟩ := h
      subst h1; subst h2
      refine ⟨rfl, by simp, by intro d hd; simp at hd; subst hd; decide, ?_⟩
      intro k _
      simp [lexInt]
    · by_cases hcd : c.isDigit = true
      · simp only [lexInt, if_neg hc0, if_pos hcd, Option.some.injEq, Prod.mk.injEq] at h
        obtain ⟨h1, h2⟩ := h
        subst h1; subst h2
        refine ⟨by rw [List.cons_append, List.takeWhile_append_dropWhile], by simp, ?_, ?_⟩
        · intro d hd
          rcases List.mem_cons.mp hd with rfl | hd'
          · exact hcd
          · exact List.mem_takeWhile_imp hd'
        · intro k hk
          have hstop := takeWhile_append_stop (p := Char.isDigit)
            (a := r.takeWhile Char.isDigit) (fun d hd => List.mem_takeWhile_imp hd) hk
          simp only [lexInt, List.cons_append, if_neg hc0, if_pos hcd, hstop.1, hstop.2]
      · have : lexInt (c :: r) = none := by simp [lexInt, hc0, hcd]
        rw [this] at h
        exact absurd h (by simp)

theorem lexFrac_not_dot {k : List Char}
    (hk : k = [] ∨ ∃ c t, k = c :: t ∧ (c = '.' → False)) : lexFrac k = ([], k) := by
  rcases hk with rfl | ⟨c, t, rfl, hc⟩
  · rfl
  · simp only [lexFrac]
    split
    · next r heq => injection heq with h1 h2; exact absurd h1 hc
    · rfl

theorem lexFrac_complete {cs f1 f2 : List Char} (h : lexFrac cs = (f1, f2)) :
    cs = f1 ++ f2 ∧
    (f1 = [] ∨ ∃ ds, f1 = '.' :: ds ∧ ds ≠ [] ∧ ∀ c ∈ ds, c.isDigit = true) := by
  rcases cs with _ | ⟨c, r⟩
  · simp only [lexFrac] at h
    injection h with h1 h2
    subst h1; subst h2
    exact ⟨rfl, Or.inl rfl⟩
  · by_cases hc : c = '.'
    · subst hc
      by_cases hemp : r.takeWhile Char.isDigit = []
      · simp only [lexFrac, hemp, if_pos rfl] at h
        injection h with h1 h2
        subst h1; subst h2
        exact ⟨rfl, Or.inl rfl⟩
      · simp only [lexFrac, if_neg hemp] at h
        injection h with h1 h2
        subst h1; subst h2
        refine ⟨by rw [List.cons_append, List.takeWhile_append_dropWhile], Or.inr ?_⟩
        exact ⟨_, rfl, hemp, fun d hd => List.mem_takeWhile_imp hd⟩
    · rw [lexFrac_not_dot (Or.inr ⟨c, r, rfl, hc⟩)] at h
      injection h with h1 h2
      subst h1; subst h2
      exact ⟨rfl, Or.inl rfl⟩

theorem lexFrac_reparse {ds k : List Char} (hds : ds ≠ [])
    (hall : ∀ c ∈ ds, c.isDigit = true)
    (hk : k = [] ∨ ∃ c t, k = c :: t ∧ c.isDigit = false) :
    lexFrac ('.' :: (ds ++ k)) = ('.' :: ds, k) := by
  have hstop := takeWhile_append_stop (p := Char.isDigit) hall hk
  simp only [lexFrac, hstop.1, hstop.2, if_neg hds]

theorem lexExp_not_e {k : List Char}
    (hk : k = [] ∨ ∃ c t, k = c :: t ∧ (c = 'e' → False) ∧ (c = 'E' → False)) :
    lexExp k = ([], k) := by
  rcases hk with rfl | ⟨c, t, rfl, hce, hcE⟩
  · rfl
  · have : (c = 'e' ∨ c = 'E') → False := fun h => h.elim hce hcE
    simp only [lexExp, if_neg this]

theorem lexExp_complete {cs e1 e2 : List Char} (h : lexExp cs = (e1, e2)) :
    cs = e1 ++ e2 ∧
    (e1 = [] ∨ ((∃ ec t, e1 = ec :: t ∧ (ec = 'e' ∨ ec = 'E')) ∧
      (∃ t d, e1 = t ++ [d] ∧ d.isDigit = true) ∧
      ∀ k, (k = [] ∨ ∃ c t, k = c :: t ∧ c.isDigit = false) →
        lexExp (e1 ++ k) = (e1, k))) := by
  rcases cs with _ | ⟨e, r⟩
  · simp only [lexExp] at h
    injection h with h1 h2
    subst h1; subst h2
    exact ⟨rfl, Or.inl rfl⟩
  · by_cases hee : e = 'e' ∨ e = 'E'
    · rcases r with _ | ⟨s, r2⟩
      · simp only [lexExp, if_pos hee] at h
        injection h with h1 h2
        subst h1; subst h2
        exact ⟨rfl, Or.inl rfl⟩
      · by_cases hs : s = '+' ∨ s = '-'
        · by_cases hemp : r2.takeWhile Char.isDigit = []
          · simp only [lexExp, if_pos hee, if_pos hs, if_pos hemp] at h
            injection h with h1 h2
            subst h1; subst h2
            exact ⟨rfl, Or.inl rfl⟩
          · simp only [lexExp, if_pos hee, if_pos hs, if_neg hemp] at h
            injection h with h1 h2
            subst h1; subst h2
            have htw : ∀ c ∈ r2.takeWhile Char.isDigit, c.isDigit = true :=
              fun d hd => List.mem_takeWhile_imp hd
            refine ⟨by simp [List.takeWhile_append_dropWhile], Or.inr ⟨⟨e, _, rfl, hee⟩, ?_, ?_⟩⟩
            · obtain ⟨t, d, htd, hdd⟩ := ends_digit hemp htw
              exact ⟨e :: s :: t, d, by rw [htd]; rfl, hdd⟩
            · intro k hk
              have hstop := takeWhile_append_stop (p := Char.isDigit) htw hk
              simp only [List.cons_append, List.append_assoc] at hstop ⊢
              simp only [lexExp, if_pos hee, if_pos hs, hstop.1, hstop.2, if_neg hemp]
        · by_cases hemp : (s :: r2).takeWhile Char.isDigit = []
          · simp only [lexExp, if_pos hee, if_neg hs, if_pos hemp] at h
            injection h with h1 h2
            subst h1; subst h2
            exact ⟨rfl, Or.inl rfl⟩
          · simp only [lexExp, if_pos hee, if_neg hs, if_neg hemp] at h
            injection h with h1 h2
            subst h1; subst h2
            have htw : ∀ c ∈ (s :: r2).takeWhile Char.isDigit, c.isDigit = true :=
              fun d hd => List.mem_takeWhile_imp hd
            refine ⟨by simp [List.takeWhile_append_dropWhile], Or.inr ⟨⟨e, _, rfl, hee⟩, ?_, ?_⟩⟩
            · obtain ⟨t, d, htd, hdd⟩ := ends_digit hemp htw
              exact ⟨e :: t, d, by rw [htd]; rfl, hdd⟩
            · intro k hk
              have hstop := takeWhile_append_stop (p := Char.isDigit) htw hk
              obtain ⟨d0, tw, hd0⟩ : ∃ d0 tw, (s :: r2).takeWhile Char.isDigit = d0 :: tw :=
                List.exists_cons_of_ne_nil hemp
              have hd0dig : d0.isDigit = true := htw d0 (hd0 ▸ List.mem_cons_self d0 tw)
              have hd0s : (d0 = '+' ∨ d0 = '-') → False := by
                rintro (rfl | rfl) <;> revert hd0dig <;> decide
              rw [hd0] at hstop ⊢
              simp only [List.cons_append] at hstop ⊢
              simp only [lexExp, if_pos hee, if_neg hd0s, hstop.1, hstop.2]
              simp
    · rw [lexExp_not_e (Or.inr ⟨e, r, rfl, fun h1 => hee (Or.inl h1), fun h2 => hee (Or.inr h2)⟩)] at h
      injection h with h1 h2
      subst h1; subst h2
      exact ⟨rfl, Or.inl rfl⟩

theorem lexTail_complete {r1 f1 f2 e1 e2 : List Char}
    (hf : lexFrac r1 = (f1, f2)) (he : lexExp f2 = (e1, e2)) :
    r1 = f1 ++ (e1 ++ e2) ∧
    (f1 ++ e1 = [] ∨ ∃ t d, f1 ++ e1 = t ++ [d] ∧ d.isDigit = true) ∧
    ∀ ext, extStopper ext →
      (f1 ++ (e1 ++ ext) = [] ∨ ∃ c t, f1 ++ (e1 ++ ext) = c :: t ∧ c.isDigit = false) ∧
      lexFrac (f1 ++ (e1 ++ ext)) = (f1, e1 ++ ext) ∧
      lexExp (e1 ++ ext) = (e1, ext) := by
  obtain ⟨hr1, hfsh⟩ := lexFrac_complete hf
  obtain ⟨hf2, hesh⟩ := lexExp_complete he
  have heExt : ∀ ext, extStopper ext →
      (e1 ++ ext = [] ∨ ∃ c t, e1 ++ ext = c :: t ∧ c.isDigit = false) := by
    intro ext hst
    rcases hesh with rfl | ⟨⟨ec, t, rfl, hec⟩, _, _⟩
    · exact extStopper_digit hst
    · refine Or.inr ⟨ec, t ++ ext, rfl, ?_⟩
      rcases hec with rfl | rfl <;> decide
  refine ⟨by rw [hr1, hf2], ?_, ?_⟩
  · rcases hesh with rfl | ⟨_, ⟨t, d, htd, hdd⟩, _⟩
    · rcases hfsh with rfl | ⟨ds, rfl, hds, hall⟩
      · exact Or.inl rfl
      · obtain ⟨t, d, htd, hdd⟩ := ends_digit hds hall
        exact Or.inr ⟨'.' :: t, d, by rw [htd]; simp, hdd⟩
    · exact Or.inr ⟨f1 ++ t, d, by rw [htd]; simp, hdd⟩
  · intro ext hst
    have hke : lexExp (e1 ++ ext) = (e1, ext) := by
      rcases hesh with rfl | ⟨_, _, hrep⟩
      · rcases hst with rfl | ⟨c, t, rfl, hc⟩
        · rfl
        · have hcf := numCont_false_facts hc
          exact lexExp_not_e (Or.inr ⟨c, t, rfl, hcf.2.2.1, hcf.2.2.2⟩)
      · exact hrep ext (extStopper_digit hst)
    have hkf : lexFrac (f1 ++ (e1 ++ ext)) = (f1, e1 ++ ext) := by
      rcases hfsh with rfl | ⟨ds, rfl, hds, hall⟩
      · rw [List.nil_append]
        refine lexFrac_not_dot ?_
        rcases hesh with rfl | ⟨⟨ec, t, rfl, hec⟩, _, _⟩
        · rcases hst with rfl | ⟨c, t, rfl, hc⟩
          · exact Or.inl rfl
          · exact Or.inr ⟨c, t, rfl, (numCont_false_facts hc).2.1⟩
        · refine Or.inr ⟨ec, t ++ (ext), rfl, ?_⟩
          rcases hec with rfl | rfl <;> decide
      · rw [List.cons_append]
        exact lexFrac_reparse hds hall (heExt ext hst)
    refine ⟨?_, hkf, hke⟩
    rcases hfsh with rfl | ⟨ds, rfl, hds, hall⟩
    · rw [List.nil_append]
      exact heExt ext hst
    · exact Or.inr ⟨'.', ds ++ (e1 ++ ext), rfl, by decide⟩

theorem lexNumber_complete {cs lex rest : List Char} (h : lexNumber cs = some (lex, rest)) :
    cs = lex ++ rest ∧
    (∃ c t, lex = c :: t ∧ (c = '-' ∨ c.isDigit = true)) ∧
    (∃ t d, lex = t ++ [d] ∧ d.isDigit = true) ∧
    ∀ ext, extStopper ext → lexNumber (lex ++ ext) = some (lex, ext) := by
  rw [lexNumber.eq_def] at h
  split at h
  · next r =>
    rcases hint : lexInt r with _ | ⟨ilex, r1⟩
    · rw [hint] at h; exact absurd h (by simp)
    · rw [hint] at h
      rcases hfr : lexFrac r1 with ⟨f1, f2⟩
      rcases hex : lexExp f2 with ⟨e1, e2⟩
      simp only [hfr, hex] at h
      injection h with hp
      injection hp with h1 h2
      subst h1; subst h2
      obtain ⟨hr, hiNe, hiDig, hiRe⟩ := lexInt_complete hint
      obtain ⟨hr1eq, hends, hstops⟩ := lexTail_complete hfr hex
      refine ⟨by rw [hr, hr1eq]; simp, ⟨'-', ilex ++ f1 ++ e1, by simp, Or.inl rfl⟩, ?_, ?_⟩
      · rcases hends with hne | ⟨t, d, htd, hdd⟩
        · obtain ⟨t, d, htd, hdd⟩ := ends_digit hiNe hiDig
          rw [List.append_eq_nil] at hne
          refine ⟨'-' :: t, d, ?_, hdd⟩
          rw [hne.1, hne.2, htd]
          simp
        · refine ⟨'-' :: ilex ++ t, d, ?_, hdd⟩
          have : f1 ++ e1 = t ++ [d] := htd
          simp only [List.cons_append, List.append_assoc] at this ⊢
          rw [this]
      · intro ext hst
        obtain ⟨hka, hkf, hke⟩ := hstops ext hst
        have hli := hiRe (f1 ++ (e1 ++ ext)) hka
        have hshape : ('-' :: ilex ++ f1 ++ e1) ++ ext = '-' :: (ilex ++ (f1 ++ (e1 ++ ext))) := by
          simp
        rw [hshape]
        simp only [lexNumber, hli, hkf, hke]
  · next hne =>
    rcases hint : lexInt cs with _ | ⟨ilex, r1⟩
    · rw [hint] at h; exact absurd h (by simp)
    · rw [hint] at h
      rcases hfr : lexFrac r1 with ⟨f1, f2⟩
      rcases hex : lexExp f2 with ⟨e1, e2⟩
      simp only [hfr, hex] at h
      injection h with hp
      injection hp with h1 h2
      subst h1; subst h2
      obtain ⟨hr, hiNe, hiDig, hiRe⟩ := lexInt_complete hint
      obtain ⟨hr1eq, hends, hstops⟩ := lexTail_complete hfr hex
      obtain ⟨d0, it, hd0⟩ := List.exists_cons_of_ne_nil hiNe
      have hd0dig : d0.isDigit = true := hiDig d0 (by rw [hd0]; exact List.mem_cons_self d0 it)
      refine ⟨by rw [hr, hr1eq]; simp, ⟨d0, it ++ f1 ++ e1, by rw [hd0]; simp, Or.inr hd0dig⟩,
        ?_, ?_⟩
      · rcases hends with hne' | ⟨t, d, htd, hdd⟩
        · obtain ⟨t, d, htd, hdd⟩ := ends_digit hiNe hiDig
          rw [List.append_eq_nil] at hne'
          exact ⟨t, d, by rw [hne'.1, hne'.2, htd]; simp, hdd⟩
        · refine ⟨ilex ++ t, d, ?_, hdd⟩
          have : f1 ++ e1 = t ++ [d] := htd
          simp only [List.append_assoc] at this ⊢
          rw [this]
      · intro ext hst
        obtain ⟨hka, hkf, hke⟩ := hstops ext hst
        have hli := hiRe (f1 ++ (e1 ++ ext)) hka
        have hshape : (ilex ++ f1 ++ e1) ++ ext = d0 :: (it ++ (f1 ++ (e1 ++ ext))) := by
          rw [hd0]; simp
        rw [hshape, lexNumber.eq_def]
        split
        · next r heq =>
          injection heq with hh1 hh2
          rw [hh1] at hd0dig
          exact absurd hd0dig (by decide)
        · rw [show d0 :: (it ++ (f1 ++ (e1 ++ ext))) = ilex ++ (f1 ++ (e1 ++ ext)) from by
            rw [hd0]; simp]
          simp only [hli, hkf, hke]

/-! ## String literal parser completeness -/

theorem parseStringBody_complete :
    ∀ fuel cs content rest, parseStringBody fuel cs = some (content, rest) →
      ∃ consumed, cs = consumed ++ rest ∧ (∃ t, consumed = t ++ ['"']) ∧
        ∀ g ext, consumed.length < g → parseStringBody g (consumed ++ ext) = some (content, ext) := by
  intro fuel
  induction fuel with
  | zero => intro cs content rest h; exact absurd h (by simp [parseStringBody])
  | succ f ih =>
    intro cs content rest h
    rcases cs with _ | ⟨c, r⟩
    · exact absurd h (by simp [parseStringBody])
    by_cases hq : c = '"'
    · subst hq
      have hc : parseStringBody (f + 1) ('"' :: r) = some ([], r) := by
        simp [parseStringBody]
      rw [hc] at h
      injection h with hp
      injection hp with h1 h2
      subst h1; subst h2
      refine ⟨['"'], rfl, ⟨[], rfl⟩, ?_⟩
      intro g ext hg
      obtain ⟨g1, rfl⟩ : ∃ g1, g = g1 + 1 := ⟨g - 1, by omega⟩
      simp [parseStringBody]
    by_cases hbs : c = '\\'
    · subst hbs
      rcases r with _ | ⟨e, r2⟩
      · exact absurd h (by simp [parseStringBody, hq])
      by_cases hu : e = 'u'
      · subst hu
        rcases r2 with _ | ⟨x1, rr⟩
        · exact absurd h (by simp [parseStringBody, hq])
        rcases rr with _ | ⟨x2, rr⟩
        · exact absurd h (by simp [parseStringBody, hq])
        rcases rr with _ | ⟨x3, rr⟩
        · exact absurd h (by simp [parseStringBody, hq])
        rcases rr with _ | ⟨x4, r3⟩
        · exact absurd h (by simp [parseStringBody, hq])
        rcases hv1 : hexVal x1 with _ | a
        · exact absurd h (by simp [parseStringBody, hq, hv1])
        rcases hv2 : hexVal x2 with _ | b
        · exact absurd h (by simp [parseStringBody, hq, hv1, hv2])
        rcases hv3 : hexVal x3 with _ | d
        · exact absurd h (by simp [parseStringBody, hq, hv1, hv2, hv3])
        rcases hv4 : hexVal x4 with _ | f4
        · exact absurd h (by simp [parseStringBody, hq, hv1, hv2, hv3, hv4])
        rcases hrec : parseStringBody f r3 with _ | ⟨content1, rest1⟩
        · exact absurd h (by simp [parseStringBody, hq, hv1, hv2, hv3, hv4, hrec])
        have hc : parseStringBody (f + 1) ('\\' :: 'u' :: x1 :: x2 :: x3 :: x4 :: r3) =
            some (Char.ofNat (((a * 16 + b) * 16 + d) * 16 + f4) :: content1, rest1) := by
          simp [parseStringBody, hq, hv1, hv2, hv3, hv4, hrec]
        rw [hc] at h
        injection h with hp
        injection hp with h1 h2
        subst h1; subst h2
        obtain ⟨consumed1, hsplit, ⟨t, hqq⟩, hrep⟩ := ih r3 content1 rest1 hrec
        refine ⟨'\\' :: 'u' :: x1 :: x2 :: x3 :: x4 :: consumed1, by rw [hsplit]; simp,
          ⟨'\\' :: 'u' :: x1 :: x2 :: x3 :: x4 :: t, by rw [hqq]; simp⟩, ?_⟩
        intro g ext hg
        obtain ⟨g1, rfl⟩ : ∃ g1, g = g1 + 1 := ⟨g - 1, by omega⟩
        have hg1 : consumed1.length < g1 := by
          simp only [List.length_cons] at hg
          omega
        simp [parseStringBody, hv1, hv2, hv3, hv4, hrep g1 ext hg1]
      · rcases hesc : escMap e with _ | ec
        · exact absurd h (by simp [parseStringBody, hq, hu, hesc])
        rcases hrec : parseStringBody f r2 with _ | ⟨content1, rest1⟩
        · exact absurd h (by simp [parseStringBody, hq, hu, hesc, hrec])
        have hc : parseStringBody (f + 1) ('\\' :: e :: r2) = some (ec :: content1, rest1) := by
          simp [parseStringBody, hq, hu, hesc, hrec]
        rw [hc] at h
        injection h with hp
        injection hp with h1 h2
        subst h1; subst h2
        obtain ⟨consumed1, hsplit, ⟨t, hqq⟩, hrep⟩ := ih r2 content1 rest1 hrec
        refine ⟨'\\' :: e :: consumed1, by rw [hsplit]; simp,
          ⟨'\\' :: e :: t, by rw [hqq]; simp⟩, ?_⟩
        intro g ext hg
        obtain ⟨g1, rfl⟩ : ∃ g1, g = g1 + 1 := ⟨g - 1, by omega⟩
        have hg1 : consumed1.length < g1 := by
          simp only [List.length_cons] at hg
          omega
        simp [parseStringBody, hu, hesc, hrep g1 ext hg1]
    · by_cases hctl : c.toNat < 32
      · exact absurd h (by simp [parseStringBody, hq, hbs, hctl])
      rcases hrec : parseStringBody f r with _ | ⟨content1, rest1⟩
      · exact absurd h (by simp [parseStringBody, hq, hbs, hctl, hrec])
      have hc : parseStringBody (f + 1) (c :: r) = some (c :: content1, rest1) := by
        simp [parseStringBody, hq, hbs, hctl, hrec]
      rw [hc] at h
      injection h with hp
      injection hp with h1 h2
      subst h1; subst h2
      obtain ⟨consumed1, hsplit, ⟨t, hqq⟩, hrep⟩ := ih r content1 rest1 hrec
      refine ⟨c :: consumed1, by rw [hsplit]; simp, ⟨c :: t, by rw [hqq]; simp⟩, ?_⟩
      intro g ext hg
      obtain ⟨g1, rfl⟩ : ∃ g1, g = g1 + 1 := ⟨g - 1, by omega⟩
      have hg1 : consumed1.length < g1 := by
        simp only [List.length_cons] at hg
        omega
      simp [parseStringBody, hq, hbs, hctl, hrep g1 ext hg1]

/-! ## Small parser facts -/

theorem parseValue_nilF (g : Nat) : parseValue g [] = none := by
  cases g <;> simp [parseValue]

theorem parseArrLoop_nilF (g : Nat) : parseArrLoop g [] = none := by
  cases g with
  | zero => simp [parseArrLoop]
  | succ f => simp [parseArrLoop, parseValue_nilF]

theorem parseObjLoop_nilF (g : Nat) : parseObjLoop g [] = none := by
  cases g <;> simp [parseObjLoop]

theorem dropLit_sound {lit cs rest : List Char} (h : dropLit lit cs = some rest) :
    cs = lit ++ rest := by
  rw [dropLit] at h
  by_cases hp : lit.isPrefixOf cs
  · rw [if_pos hp] at h
    injection h with h1
    obtain ⟨t, ht⟩ := List.isPrefixOf_iff_prefix.mp hp
    subst ht
    rw [List.drop_left] at h1
    rw [h1]
  · rw [if_neg hp] at h
    exact absurd h (by simp)

theorem dropLit_append (lit ext : List Char) : dropLit lit (lit ++ ext) = some ext := by
  rw [dropLit, if_pos (isPrefixOf_append_self lit ext), List.drop_left]

theorem digit_good {c : Char} (h : c.isDigit = true) :
    pyIsSpace c = false ∧ (c = '`' → False) := by
  constructor
  · cases hs : pyIsSpace c with
    | false => rfl
    | true => rw [isDigit_false_of_pyIsSpace hs] at h; exact absurd h (by simp)
  · rintro rfl
    revert h
    decide

theorem extStopper_ws_append {ws : List Char} (hws : ∀ c ∈ ws, isJsonWs c = true)
    {d : Char} (hd : numCont d = false) (t : List Char) : extStopper (ws ++ d :: t) := by
  rcases ws with _ | ⟨w, ws1⟩
  · exact extStopper_cons hd
  · exact extStopper_cons (numCont_false_of_jsonWs (hws w (List.mem_cons_self w ws1)))

theorem parse_complete (fuel : Nat) :
    (∀ cs v rest, parseValue fuel cs = some (v, rest) → ValP cs v rest) ∧
    (∀ cs vs rest, parseArrLoop fuel cs = some (vs, rest) → ArrP cs vs rest) ∧
    (∀ cs kvs rest, parseObjLoop fuel cs = some (kvs, rest) → ObjP cs kvs rest) := by
  induction fuel with
  | zero =>
    refine ⟨?_, ?_, ?_⟩ <;> intro cs x rest h <;>
      exact absurd h (by simp [parseValue, parseArrLoop, parseObjLoop])
  | succ f ih =>
    obtain ⟨ihv, iha, iho⟩ := ih
    refine ⟨?_, ?_, ?_⟩
    · -- parseValue
      intro cs v rest h
      rcases cs with _ | ⟨c, r⟩
      · exact absurd h (by simp [parseValue])
      by_cases hc1 : c = '{'
      · -- object values
        subst hc1
        simp only [parseValue, Char.reduceEq, reduceIte] at h
        obtain ⟨ws1, hr, hws1⟩ := skipWs_decomp r
        rcases hsw : skipWs r with _ | ⟨d, r1⟩
        · rw [hsw] at h
          simp [parseObjLoop_nilF] at h
        by_cases hd : d = '}'
        · subst hd
          rw [hsw] at h
          injection h with hp
          injection hp with h1 h2
          subst h1; subst h2
          rw [hsw] at hr
          refine ⟨'{' :: ws1 ++ ['}'], by rw [hr]; simp, ⟨'{', ws1 ++ ['}'], by simp, Or.inl rfl⟩,
            ⟨'{' :: ws1, '}', by simp, by decide, by decide⟩, ?_⟩
          intro g ext hlen hst
          obtain ⟨g1, rfl⟩ : ∃ g1, g = g1 + 1 := ⟨g - 1, by omega⟩
          have hsw2 : skipWs (ws1 ++ '}' :: ext) = '}' :: ext := by
            rw [skipWs_append_all hws1, skipWs_cons_false (by decide)]
          rw [show ('{' :: ws1 ++ ['}']) ++ ext = '{' :: (ws1 ++ '}' :: ext) from by simp]
          simp only [parseValue, Char.reduceEq, reduceIte, hsw2]
        · -- nonempty object
          rw [hsw] at h
          split at h
          · next r2 heq =>
            injection heq with he1 he2
            exact absurd he1 hd
          rcases hobj : parseObjLoop f (d :: r1) with _ | ⟨⟨kvs, rest1⟩⟩
          · rw [hobj] at h
            exact absurd h (by simp)
          rw [hobj] at h
          injection h with hp
          injection hp with h1 h2
          subst h1; subst h2
          obtain ⟨co, hco, ⟨t2, hq2⟩, ⟨t3, he3⟩, hrepo⟩ := iho (d :: r1) kvs rest1 hobj
          refine ⟨'{' :: ws1 ++ co, by rw [hr, hsw, hco]; simp,
            ⟨'{', ws1 ++ co, by simp, Or.inl rfl⟩,
            ⟨'{' :: ws1 ++ t3, '}', by rw [he3]; simp, by decide, by decide⟩, ?_⟩
          intro g ext hlen hst
          obtain ⟨g1, rfl⟩ : ∃ g1, g = g1 + 1 := ⟨g - 1, by omega⟩
          have hlen2 : co.length < g1 := by
            simp only [List.cons_append, List.length_cons, List.length_append] at hlen
            omega
          have hco' : co ++ ext = '"' :: (t2 ++ ext) := by rw [hq2]; simp
          have hsw3 : skipWs (ws1 ++ (co ++ ext)) = '"' :: (t2 ++ ext) := by
            rw [hco', skipWs_append_all hws1, skipWs_cons_false (by decide)]
          have hrepo' : parseObjLoop g1 ('"' :: (t2 ++ ext)) = some (kvs, ext) := by
            rw [← hco']
            exact hrepo g1 ext hlen2
          rw [show ('{' :: ws1 ++ co) ++ ext = '{' :: (ws1 ++ (co ++ ext)) from by simp]
          simp only [parseValue, Char.reduceEq, reduceIte, hsw3]
          split
          · next r2 heq =>
            injection heq with he1 he2
            exact absurd he1 (by decide)
          · simp only [hrepo']
      by_cases hc2 : c = '['
      · -- array values
        subst hc2
        simp only [parseValue, Char.reduceEq, reduceIte] at h
        obtain ⟨ws1, hr, hws1⟩ := skipWs_decomp r
        rcases hsw : skipWs r with _ | ⟨d, r1⟩
        · rw [hsw] at h
          simp [parseArrLoop_nilF] at h
        by_cases hd : d = ']'
        · subst hd
          rw [hsw] at h
          injection h with hp
          injection hp with h1 h2
          subst h1; subst h2
          rw [hsw] at hr
          refine ⟨'[' :: ws1 ++ [']'], by rw [hr]; simp, ⟨'[', ws1 ++ [']'], by simp, by decide⟩,
            ⟨'[' :: ws1, ']', by simp, by decide, by decide⟩, ?_⟩
          intro g ext hlen hst
          obtain ⟨g1, rfl⟩ : ∃ g1, g = g1 + 1 := ⟨g - 1, by omega⟩
          have hsw2 : skipWs (ws1 ++ ']' :: ext) = ']' :: ext := by
            rw [skipWs_append_all hws1, skipWs_cons_false (by decide)]
          rw [show ('[' :: ws1 ++ [']']) ++ ext = '[' :: (ws1 ++ ']' :: ext) from by simp]
          simp only [parseValue, Char.reduceEq, reduceIte, hsw2]
        · rw [hsw] at h
          split at h
          · next heq =>
            injection heq with he1
            exact absurd he1 hd
          rcases harr : parseArrLoop f (d :: r1) with _ | ⟨⟨vs, rest1⟩⟩
          · rw [harr] at h
            exact absurd h (by simp)
          rw [harr] at h
          injection h with hp
          injection hp with h1 h2
          subst h1; subst h2
          obtain ⟨co, hco, ⟨c1, t2, hq2, hvs1⟩, ⟨t3, he3⟩, hrepa⟩ := iha (d :: r1) vs rest1 harr
          have hgood := valueStart_facts hvs1
          refine ⟨'[' :: ws1 ++ co, by rw [hr, hsw, hco]; simp,
            ⟨'[', ws1 ++ co, by simp, by decide⟩,
            ⟨'[' :: ws1 ++ t3, ']', by rw [he3]; simp, by decide, by decide⟩, ?_⟩
          intro g ext hlen hst
          obtain ⟨g1, rfl⟩ : ∃ g1, g = g1 + 1 := ⟨g - 1, by omega⟩
          have hlen2 : co.length < g1 := by
            simp only [List.cons_append, List.length_cons, List.length_append] at hlen
            omega
          have hco' : co ++ ext = c1 :: (t2 ++ ext) := by rw [hq2]; simp
          have hsw3 : skipWs (ws1 ++ (co ++ ext)) = c1 :: (t2 ++ ext) := by
            rw [hco', skipWs_append_all hws1, skipWs_cons_false hgood.2.1]
          have hrepa1 : parseArrLoop g1 (c1 :: (t2 ++ ext)) = some (vs, ext) := by
            rw [← hco']
            exact hrepa g1 ext hlen2
          rw [show ('[' :: ws1 ++ co) ++ ext = '[' :: (ws1 ++ (co ++ ext)) from by simp]
          simp only [parseValue, Char.reduceEq, reduceIte, hsw3]
          split
          · next r2 heq =>
            injection heq with he1 he2
            exact (hgood.2.2.2.1 he1).elim
          · simp only [hrepa1]
      by_cases hc3 : c = '"'
      · -- string values
        subst hc3
        simp only [parseValue, Char.reduceEq, reduceIte] at h
        rcases hstr : parseStringBody f r with _ | ⟨⟨content, rest1⟩⟩
        · rw [hstr] at h
          exact absurd h (by simp)
        rw [hstr] at h
        injection h with hp
        injection hp with h1 h2
        subst h1; subst h2
        obtain ⟨cs1, hsplit, ⟨t, hqq⟩, hrepS⟩ := parseStringBody_complete f r content rest1 hstr
        refine ⟨'"' :: cs1, by rw [hsplit]; simp,
          ⟨'"', cs1, rfl, by decide⟩,
          ⟨'"' :: t, '"', by rw [hqq]; simp, by decide, by decide⟩, ?_⟩
        intro g ext hlen hst
        obtain ⟨g1, rfl⟩ : ∃ g1, g = g1 + 1 := ⟨g - 1, by omega⟩
        have hlen2 : cs1.length < g1 := by
          simp only [List.length_cons] at hlen
          omega
        rw [show ('"' :: cs1) ++ ext = '"' :: (cs1 ++ ext) from by simp]
        simp only [parseValue, Char.reduceEq, reduceIte, hrepS g1 ext hlen2]
      by_cases hc4 : c = 't'
      · subst hc4
        simp only [parseValue, Char.reduceEq, reduceIte] at h
        rcases hdl : dropLit ['r', 'u', 'e'] r with _ | rest1
        · rw [hdl] at h
          exact absurd h (by simp)
        rw [hdl] at h
        injection h with hp
        injection hp with h1 h2
        subst h1; subst h2
        have hsplit := dropLit_sound hdl
        refine ⟨'t' :: ['r', 'u', 'e'], by rw [hsplit]; rfl,
          ⟨'t', ['r', 'u', 'e'], rfl, by decide⟩,
          ⟨['t', 'r', 'u'], 'e', rfl, by decide, by decide⟩, ?_⟩
        intro g ext hlen hst
        obtain ⟨g1, rfl⟩ : ∃ g1, g = g1 + 1 := ⟨g - 1, by omega⟩
        rw [show ('t' :: ['r', 'u', 'e']) ++ ext = 't' :: (['r', 'u', 'e'] ++ ext) from rfl]
        simp only [parseValue, Char.reduceEq, reduceIte, dropLit_append]
      by_cases hc5 : c = 'f'
      · subst hc5
        simp only [parseValue, Char.reduceEq, reduceIte] at h
        rcases hdl : dropLit ['a', 'l', 's', 'e'] r with _ | rest1
        · rw [hdl] at h
          exact absurd h (by simp)
        rw [hdl] at h
        injection h with hp
        injection hp with h1 h2
        subst h1; subst h2
        have hsplit := dropLit_sound hdl
        refine ⟨'f' :: ['a', 'l', 's', 'e'], by rw [hsplit]; rfl,
          ⟨'f', ['a', 'l', 's', 'e'], rfl, by decide⟩,
          ⟨['f', 'a', 'l', 's'], 'e', rfl, by decide, by decide⟩, ?_⟩
        intro g ext hlen hst
        obtain ⟨g1, rfl⟩ : ∃ g1, g = g1 + 1 := ⟨g - 1, by omega⟩
        rw [show ('f' :: ['a', 'l', 's', 'e']) ++ ext = 'f' :: (['a', 'l', 's', 'e'] ++ ext) from rfl]
        simp only [parseValue, Char.reduceEq, reduceIte, dropLit_append]
      by_cases hc6 : c = 'n'
      · subst hc6
        simp only [parseValue, Char.reduceEq, reduceIte] at h
        rcases hdl : dropLit ['u', 'l', 'l'] r with _ | rest1
        · rw [hdl] at h
          exact absurd h (by simp)
        rw [hdl] at h
        injection h with hp
        injection hp with h1 h2
        subst h1; subst h2
        have hsplit := dropLit_sound hdl
        refine ⟨'n' :: ['u', 'l', 'l'], by rw [hsplit]; rfl,
          ⟨'n', ['u', 'l', 'l'], rfl, by decide⟩,
          ⟨['n', 'u', 'l'], 'l', rfl, by decide, by decide⟩, ?_⟩
        intro g ext hlen hst
        obtain ⟨g1, rfl⟩ : ∃ g1, g = g1 + 1 := ⟨g - 1, by omega⟩
        rw [show ('n' :: ['u', 'l', 'l']) ++ ext = 'n' :: (['u', 'l', 'l'] ++ ext) from rfl]
        simp only [parseValue, Char.reduceEq, reduceIte, dropLit_append]
      by_cases hc7 : c = 'N'
      · subst hc7
        simp only [parseValue, Char.reduceEq, reduceIte] at h
        rcases hdl : dropLit ['a', 'N'] r with _ | rest1
        · rw [hdl] at h
          exact absurd h (by simp)
        rw [hdl] at h
        injection h with hp
        injection hp with h1 h2
        subst h1; subst h2
        have hsplit := dropLit_sound hdl
        refine ⟨'N' :: ['a', 'N'], by rw [hsplit]; rfl,
          ⟨'N', ['a', 'N'], rfl, by decide⟩,
          ⟨['N', 'a'], 'N', rfl, by decide, by decide⟩, ?_⟩
        intro g ext hlen hst
        obtain ⟨g1, rfl⟩ : ∃ g1, g = g1 + 1 := ⟨g - 1, by omega⟩
        rw [show ('N' :: ['a', 'N']) ++ ext = 'N' :: (['a', 'N'] ++ ext) from rfl]
        simp only [parseValue, Char.reduceEq, reduceIte, dropLit_append]
      by_cases hc8 : c = 'I'
      · subst hc8
        simp only [parseValue, Char.reduceEq, reduceIte] at h
        rcases hdl : dropLit ['n', 'f', 'i', 'n', 'i', 't', 'y'] r with _ | rest1
        · rw [hdl] at h
          exact absurd h (by simp)
        rw [hdl] at h
        injection h with hp
        injection hp with h1 h2
        subst h1; subst h2
        have hsplit := dropLit_sound hdl
        refine ⟨'I' :: ['n', 'f', 'i', 'n', 'i', 't', 'y'], by rw [hsplit]; rfl,
          ⟨'I', ['n', 'f', 'i', 'n', 'i', 't', 'y'], rfl, by decide⟩,
          ⟨['I', 'n', 'f', 'i', 'n', 'i', 't'], 'y', rfl, by decide, by decide⟩, ?_⟩
        intro g ext hlen hst
        obtain ⟨g1, rfl⟩ : ∃ g1, g = g1 + 1 := ⟨g - 1, by omega⟩
        rw [show ('I' :: ['n', 'f', 'i', 'n', 'i', 't', 'y']) ++ ext =
          'I' :: (['n', 'f', 'i', 'n', 'i', 't', 'y'] ++ ext) from rfl]
        simp only [parseValue, Char.reduceEq, reduceIte, dropLit_append]
      · -- numbers and -Infinity
        simp only [parseValue, if_neg hc1, if_neg hc2, if_neg hc3, if_neg hc4, if_neg hc5,
          if_neg hc6, if_neg hc7, if_neg hc8] at h
        rcases hlex : lexNumber (c :: r) with _ | ⟨⟨lex, rest1⟩⟩
        · simp only [hlex] at h
          by_cases hcm : c = '-'
          · subst hcm
            rw [if_pos rfl] at h
            rcases hdl : dropLit ['I', 'n', 'f', 'i', 'n', 'i', 't', 'y'] r with _ | rest1
            · rw [hdl] at h
              exact absurd h (by simp)
            rw [hdl] at h
            injection h with hp
            injection hp with h1 h2
            subst h1; subst h2
            have hsplit := dropLit_sound hdl
            refine ⟨'-' :: ['I', 'n', 'f', 'i', 'n', 'i', 't', 'y'], by rw [hsplit]; rfl,
              ⟨'-', ['I', 'n', 'f', 'i', 'n', 'i', 't', 'y'], rfl, by decide⟩,
              ⟨['-', 'I', 'n', 'f', 'i', 'n', 'i', 't'], 'y', rfl, by decide, by decide⟩, ?_⟩
            intro g ext hlen hst
            obtain ⟨g1, rfl⟩ : ∃ g1, g = g1 + 1 := ⟨g - 1, by omega⟩
            have hlexf : lexNumber ('-' :: (['I', 'n', 'f', 'i', 'n', 'i', 't', 'y'] ++ ext)) =
                none := by
              simp [lexNumber, lexInt]
            rw [show ('-' :: ['I', 'n', 'f', 'i', 'n', 'i', 't', 'y']) ++ ext =
              '-' :: (['I', 'n', 'f', 'i', 'n', 'i', 't', 'y'] ++ ext) from rfl]
            simp only [parseValue, Char.reduceEq, reduceIte, hlexf, dropLit_append]
          · rw [if_neg hcm] at h
            exact absurd h (by simp)
        · simp only [hlex] at h
          injection h with hp
          injection hp with h1 h2
          subst h1; subst h2
          obtain ⟨hsplitN, ⟨c0, t0, hlex0, hc0⟩, ⟨tN, dN, hendN, hdd⟩, hrepN⟩ :=
            lexNumber_complete hlex
          have hcr : c :: r = c0 :: (t0 ++ rest1) := by
            rw [hsplitN, hlex0]
            rfl
          injection hcr with hcc hrr
          subst hcc
          have hvsc : valueStart c := by
            rcases hc0 with rfl | hdig
            · exact Or.inr (Or.inr (Or.inr (Or.inr (Or.inr (Or.inr (Or.inr (Or.inr
                (Or.inl rfl))))))))
            · exact Or.inr (Or.inr (Or.inr (Or.inr (Or.inr (Or.inr (Or.inr (Or.inr
                (Or.inr hdig))))))))
          refine ⟨lex, hsplitN, ⟨c, t0, hlex0, hvsc⟩,
            ⟨tN, dN, hendN, (digit_good hdd).1, (digit_good hdd).2⟩, ?_⟩
          intro g ext hlen hst
          obtain ⟨g1, rfl⟩ : ∃ g1, g = g1 + 1 := ⟨g - 1, by omega⟩
          have hlexr : lexNumber (c :: (t0 ++ ext)) = some (lex, ext) := by
            rw [show c :: (t0 ++ ext) = lex ++ ext from by rw [hlex0]; rfl]
            exact hrepN ext hst
          rw [show lex ++ ext = c :: (t0 ++ ext) from by rw [hlex0]; rfl]
          simp only [parseValue, if_neg hc1, if_neg hc2, if_neg hc3, if_neg hc4, if_neg hc5,
            if_neg hc6, if_neg hc7, if_neg hc8, hlexr]
    · -- parseArrLoop
      intro cs vs rest h
      simp only [parseArrLoop] at h
      rcases hpv : parseValue f cs with _ | ⟨⟨v, r⟩⟩
      · rw [hpv] at h
        exact absurd h (by simp)
      simp only [hpv] at h
      obtain ⟨cv, hcv, ⟨c0, t0, hq0, hvs0⟩, _, hrepv⟩ := ihv cs v r hpv
      obtain ⟨ws2, hr2, hws2⟩ := skipWs_decomp r
      split at h
      · next r2 heq =>
        injection h with hp
        injection hp with h1 h2
        subst h1; subst h2
        have hrw : r = ws2 ++ ']' :: r2 := by rw [hr2, heq]
        refine ⟨cv ++ (ws2 ++ [']']), by rw [hcv, hrw]; simp,
          ⟨c0, t0 ++ (ws2 ++ [']']), by rw [hq0]; simp, hvs0⟩,
          ⟨cv ++ ws2, by simp⟩, ?_⟩
        intro g ext hlen
        obtain ⟨g1, rfl⟩ : ∃ g1, g = g1 + 1 := ⟨g - 1, by omega⟩
        have hlenv : cv.length < g1 := by
          simp only [List.length_append, List.length_cons] at hlen
          omega
        have hst2 : extStopper (ws2 ++ ']' :: ext) :=
          extStopper_ws_append hws2 (by decide) ext
        have hv2 : parseValue g1 (cv ++ (ws2 ++ ']' :: ext)) = some (v, ws2 ++ ']' :: ext) :=
          hrepv g1 _ hlenv hst2
        have hsw4 : skipWs (ws2 ++ ']' :: ext) = ']' :: ext := by
          rw [skipWs_append_all hws2, skipWs_cons_false (by decide)]
        rw [show (cv ++ (ws2 ++ [']'])) ++ ext = cv ++ (ws2 ++ ']' :: ext) from by simp]
        simp only [parseArrLoop, Char.reduceEq, reduceIte, hv2, hsw4]
      · next r2 heq =>
        rcases hloop : parseArrLoop f (skipWs r2) with _ | ⟨⟨vs1, rest1⟩⟩
        · rw [hloop] at h
          exact absurd h (by simp)
        rw [hloop] at h
        injection h with hp
        injection hp with h1 h2
        subst h1; subst h2
        have hrw : r = ws2 ++ ',' :: r2 := by rw [hr2, heq]
        obtain ⟨ws3, hr3, hws3⟩ := skipWs_decomp r2
        obtain ⟨cl, hcl, ⟨c1, t1, hq1, hvs1⟩, ⟨t3, he3⟩, hrepl⟩ := iha (skipWs r2) vs1 rest1 hloop
        refine ⟨cv ++ (ws2 ++ ',' :: (ws3 ++ cl)), by rw [hcv, hrw, hr3, hcl]; simp,
          ⟨c0, t0 ++ (ws2 ++ ',' :: (ws3 ++ cl)), by rw [hq0]; simp, hvs0⟩,
          ⟨cv ++ (ws2 ++ ',' :: (ws3 ++ t3)), by rw [he3]; simp⟩, ?_⟩
        intro g ext hlen
        obtain ⟨g1, rfl⟩ : ∃ g1, g = g1 + 1 := ⟨g - 1, by omega⟩
        have hlenv : cv.length < g1 := by
          simp only [List.length_append, List.length_cons] at hlen
          omega
        have hlenl : cl.length < g1 := by
          simp only [List.length_append, List.length_cons] at hlen
          omega
        have hst2 : extStopper (ws2 ++ ',' :: (ws3 ++ (cl ++ ext))) :=
          extStopper_ws_append hws2 (by decide) _
        have hv2 : parseValue g1 (cv ++ (ws2 ++ ',' :: (ws3 ++ (cl ++ ext)))) =
            some (v, ws2 ++ ',' :: (ws3 ++ (cl ++ ext))) :=
          hrepv g1 _ hlenv hst2
        have hsw4 : skipWs (ws2 ++ ',' :: (ws3 ++ (cl ++ ext))) = ',' :: (ws3 ++ (cl ++ ext)) := by
          rw [skipWs_append_all hws2, skipWs_cons_false (by decide)]
        have hcl2 : cl ++ ext = c1 :: (t1 ++ ext) := by rw [hq1]; simp
        have hsw5 : skipWs (ws3 ++ (cl ++ ext)) = c1 :: (t1 ++ ext) := by
          rw [hcl2, skipWs_append_all hws3, skipWs_cons_false (valueStart_facts hvs1).2.1]
        have hl2 : parseArrLoop g1 (c1 :: (t1 ++ ext)) = some (vs1, ext) := by
          rw [← hcl2]
          exact hrepl g1 ext hlenl
        rw [show (cv ++ (ws2 ++ ',' :: (ws3 ++ cl))) ++ ext =
          cv ++ (ws2 ++ ',' :: (ws3 ++ (cl ++ ext))) from by simp]
        simp only [parseArrLoop, Char.reduceEq, reduceIte, hv2, hsw4, hsw5, hl2]
      · next hne1 hne2 =>
        exact absurd h (by simp)
    · -- parseObjLoop
      intro cs kvs rest h
      rcases cs with _ | ⟨c, r⟩
      · rw [parseObjLoop_nilF] at h
        exact absurd h (by simp)
      by_cases hcq : c = '"'
      · subst hcq
        simp only [parseObjLoop, Char.reduceEq, reduceIte] at h
        rcases hstr : parseStringBody f r with _ | ⟨⟨key, r1⟩⟩
        · rw [hstr] at h
          exact absurd h (by simp)
        simp only [hstr] at h
        obtain ⟨cS, hcS, ⟨tS, hqS⟩, hrepS⟩ := parseStringBody_complete f r key r1 hstr
        obtain ⟨ws4, hr4, hws4⟩ := skipWs_decomp r1
        split at h
        · next r3 heq =>
          obtain ⟨ws5, hr5, hws5⟩ := skipWs_decomp r3
          rcases hpv : parseValue f (skipWs r3) with _ | ⟨⟨v, r4⟩⟩
          · rw [hpv] at h
            exact absurd h (by simp)
          simp only [hpv] at h
          obtain ⟨cv, hcv, ⟨c0, t0, hq0, hvs0⟩, _, hrepv⟩ := ihv (skipWs r3) v r4 hpv
          obtain ⟨ws6, hr6, hws6⟩ := skipWs_decomp r4
          split at h
          · next r6 heq2 =>
            injection h with hp
            injection hp with h1 h2
            subst h1; subst h2
            refine ⟨'"' :: (cS ++ (ws4 ++ ':' :: (ws5 ++ (cv ++ (ws6 ++ ['}']))))),
              by rw [hcS, hr4, heq, hr5, hcv, hr6, heq2]; simp,
              ⟨cS ++ (ws4 ++ ':' :: (ws5 ++ (cv ++ (ws6 ++ ['}'])))), rfl⟩,
              ⟨'"' :: (cS ++ (ws4 ++ ':' :: (ws5 ++ (cv ++ ws6)))), by simp⟩, ?_⟩
            intro g ext hlen
            obtain ⟨g1, rfl⟩ : ∃ g1, g = g1 + 1 := ⟨g - 1, by omega⟩
            have hlenS : cS.length < g1 := by
              simp only [List.length_append, List.length_cons] at hlen
              omega
            have hlenv : cv.length < g1 := by
              simp only [List.length_append, List.length_cons] at hlen
              omega
            have hS2 : parseStringBody g1
                (cS ++ (ws4 ++ ':' :: (ws5 ++ (cv ++ (ws6 ++ '}' :: ext))))) =
                some (key, ws4 ++ ':' :: (ws5 ++ (cv ++ (ws6 ++ '}' :: ext)))) :=
              hrepS g1 _ hlenS
            have hsA : skipWs (ws4 ++ ':' :: (ws5 ++ (cv ++ (ws6 ++ '}' :: ext)))) =
                ':' :: (ws5 ++ (cv ++ (ws6 ++ '}' :: ext))) := by
              rw [skipWs_append_all hws4, skipWs_cons_false (by decide)]
            have hcv2 : cv ++ (ws6 ++ '}' :: ext) = c0 :: (t0 ++ (ws6 ++ '}' :: ext)) := by
              rw [hq0]; simp
            have hsB : skipWs (ws5 ++ (cv ++ (ws6 ++ '}' :: ext))) =
                c0 :: (t0 ++ (ws6 ++ '}' :: ext)) := by
              rw [hcv2, skipWs_append_all hws5, skipWs_cons_false (valueStart_facts hvs0).2.1]
            have hv2 : parseValue g1 (c0 :: (t0 ++ (ws6 ++ '}' :: ext))) =
                some (v, ws6 ++ '}' :: ext) := by
              rw [← hcv2]
              exact hrepv g1 _ hlenv (extStopper_ws_append hws6 (by decide) ext)
            have hsC : skipWs (ws6 ++ '}' :: ext) = '}' :: ext := by
              rw [skipWs_append_all hws6, skipWs_cons_false (by decide)]
            rw [show ('"' :: (cS ++ (ws4 ++ ':' :: (ws5 ++ (cv ++ (ws6 ++ ['}'])))))) ++ ext =
              '"' :: (cS ++ (ws4 ++ ':' :: (ws5 ++ (cv ++ (ws6 ++ '}' :: ext))))) from by simp]
            simp only [parseObjLoop, Char.reduceEq, reduceIte, hS2, hsA, hsB, hv2, hsC]
          · next r6 heq2 =>
            rcases hloop : parseObjLoop f (skipWs r6) with _ | ⟨⟨kvs1, rest1⟩⟩
            · rw [hloop] at h
              exact absurd h (by simp)
            simp only [hloop] at h
            injection h with hp
            injection hp with h1 h2
            subst h1; subst h2
            obtain ⟨ws7, hr7, hws7⟩ := skipWs_decomp r6
            obtain ⟨cO, hcO, ⟨tO, hqO⟩, ⟨tO2, heO⟩, hrepO⟩ := iho (skipWs r6) kvs1 rest1 hloop
            refine ⟨'"' :: (cS ++ (ws4 ++ ':' :: (ws5 ++ (cv ++ (ws6 ++ ',' :: (ws7 ++ cO)))))),
              by rw [hcS, hr4, heq, hr5, hcv, hr6, heq2, hr7, hcO]; simp,
              ⟨cS ++ (ws4 ++ ':' :: (ws5 ++ (cv ++ (ws6 ++ ',' :: (ws7 ++ cO))))), rfl⟩,
              ⟨'"' :: (cS ++ (ws4 ++ ':' :: (ws5 ++ (cv ++ (ws6 ++ ',' :: (ws7 ++ tO2)))))),
                by rw [heO]; simp⟩, ?_⟩
            intro g ext hlen
            obtain ⟨g1, rfl⟩ : ∃ g1, g = g1 + 1 := ⟨g - 1, by omega⟩
            have hlenS : cS.length < g1 := by
              simp only [List.length_append, List.length_cons] at hlen
              omega
            have hlenv : cv.length < g1 := by
              simp only [List.length_append, List.length_cons] at hlen
              omega
            have hlenO : cO.length < g1 := by
              simp only [List.length_append, List.length_cons] at hlen
              omega
            have hS2 : parseStringBody g1
                (cS ++ (ws4 ++ ':' :: (ws5 ++ (cv ++ (ws6 ++ ',' :: (ws7 ++ (cO ++ ext))))))) =
                some (key, ws4 ++ ':' :: (ws5 ++ (cv ++ (ws6 ++ ',' :: (ws7 ++ (cO ++ ext)))))) :=
              hrepS g1 _ hlenS
            have hsA : skipWs (ws4 ++ ':' :: (ws5 ++ (cv ++ (ws6 ++ ',' :: (ws7 ++ (cO ++ ext)))))) =
                ':' :: (ws5 ++ (cv ++ (ws6 ++ ',' :: (ws7 ++ (cO ++ ext))))) := by
              rw [skipWs_append_all hws4, skipWs_cons_false (by decide)]
            have hcv2 : cv ++ (ws6 ++ ',' :: (ws7 ++ (cO ++ ext))) =
                c0 :: (t0 ++ (ws6 ++ ',' :: (ws7 ++ (cO ++ ext)))) := by
              rw [hq0]; simp
            have hsB : skipWs (ws5 ++ (cv ++ (ws6 ++ ',' :: (ws7 ++ (cO ++ ext))))) =
                c0 :: (t0 ++ (ws6 ++ ',' :: (ws7 ++ (cO ++ ext)))) := by
              rw [hcv2, skipWs_append_all hws5, skipWs_cons_false (valueStart_facts hvs0).2.1]
            have hv2 : parseValue g1 (c0 :: (t0 ++ (ws6 ++ ',' :: (ws7 ++ (cO ++ ext))))) =
                some (v, ws6 ++ ',' :: (ws7 ++ (cO ++ ext))) := by
              rw [← hcv2]
              exact hrepv g1 _ hlenv (extStopper_ws_append hws6 (by decide) _)
            have hsC : skipWs (ws6 ++ ',' :: (ws7 ++ (cO ++ ext))) =
                ',' :: (ws7 ++ (cO ++ ext)) := by
              rw [skipWs_append_all hws6, skipWs_cons_false (by decide)]
            have hcO2 : cO ++ ext = '"' :: (tO ++ ext) := by rw [hqO]; simp
            have hsD : skipWs (ws7 ++ (cO ++ ext)) = '"' :: (tO ++ ext) := by
              rw [hcO2, skipWs_append_all hws7, skipWs_cons_false (by decide)]
            have hO2 : parseObjLoop g1 ('"' :: (tO ++ ext)) = some (kvs1, ext) := by
              rw [← hcO2]
              exact hrepO g1 ext hlenO
            rw [show ('"' :: (cS ++ (ws4 ++ ':' :: (ws5 ++ (cv ++ (ws6 ++ ',' ::
              (ws7 ++ cO))))))) ++ ext =
              '"' :: (cS ++ (ws4 ++ ':' :: (ws5 ++ (cv ++ (ws6 ++ ',' ::
              (ws7 ++ (cO ++ ext))))))) from by simp]
            simp only [parseObjLoop, Char.reduceEq, reduceIte, hS2, hsA, hsB, hv2, hsC, hsD, hO2]
          · next hne1 hne2 =>
            exact absurd h (by simp)
        · next hne =>
          exact absurd h (by simp)
      · simp only [parseObjLoop] at h
        split at h
        · next r2 heq =>
          injection heq with he1 he2
          exact absurd he1 hcq
        · next hne =>
          exact absurd h (by simp)

/-! ## Decoder-level consequences -/

theorem loadsL_decomp {cs : List Char} {v : Json} (h : loadsL cs = some v) :
    ∃ ws0 consumed ws1, cs = ws0 ++ (consumed ++ ws1) ∧
      (∀ c ∈ ws0, isJsonWs c = true) ∧ (∀ c ∈ ws1, isJsonWs c = true) ∧
      (∃ c t, consumed = c :: t ∧ valueStart c) ∧
      (∃ t c, consumed = t ++ [c] ∧ pyIsSpace c = false ∧ (c = '`' → False)) ∧
      ∀ g ext, consumed.length < g → extStopper ext →
        parseValue g (consumed ++ ext) = some (v, ext) := by
  rw [loadsL] at h
  rcases hpv : parseValue (cs.length + 1) (skipWs cs) with _ | ⟨⟨v1, rest⟩⟩
  · rw [hpv] at h
    exact absurd h (by simp)
  simp only [hpv] at h
  by_cases hnil : skipWs rest = []
  · rw [if_pos hnil] at h
    injection h with h1
    subst h1
    obtain ⟨ws0, hw0, hws0⟩ := skipWs_decomp cs
    obtain ⟨consumed, hsp, hhead, hlast, hrep⟩ := (parse_complete (cs.length + 1)).1 _ _ _ hpv
    exact ⟨ws0, consumed, rest, by rw [hw0, hsp], hws0, skipWs_nil_all hnil, hhead, hlast, hrep⟩
  · rw [if_neg hnil] at h
    exact absurd h (by simp)

theorem loadsL_consumed {consumed : List Char} {v : Json}
    (hhead : ∃ c t, consumed = c :: t ∧ valueStart c)
    (hrep : ∀ g ext, consumed.length < g → extStopper ext →
      parseValue g (consumed ++ ext) = some (v, ext)) :
    loadsL consumed = some v := by
  obtain ⟨c, t, hct, hvs⟩ := hhead
  have hsk : skipWs consumed = consumed := by
    rw [hct]
    exact skipWs_cons_false (valueStart_facts hvs).2.1
  have hp : parseValue (consumed.length + 1) consumed = some (v, []) := by
    have := hrep (consumed.length + 1) [] (by omega) extStopper_nil
    rwa [List.append_nil] at this
  rw [loadsL, hsk, hp]
  rfl

theorem cleanParse_plain {cs : List Char} {v : Json} (h : loadsL cs = some v) :
    loadsL (cleanJsonL cs) = some v := by
  obtain ⟨ws0, consumed, ws1, hsplit, hws0, hws1, hhead, hlast, hrep⟩ := loadsL_decomp h
  obtain ⟨c, t, hct, hvs⟩ := hhead
  obtain ⟨t2, e, hte, hpe, hbe⟩ := hlast
  have hstrip : pyStripL cs = consumed := by
    rw [hsplit, ← List.append_assoc]
    exact pyStripL_spec (fun d hd => pyIsSpace_of_jsonWs (hws0 d hd))
      (fun d hd => pyIsSpace_of_jsonWs (hws1 d hd))
      ⟨c, t, hct, (valueStart_facts hvs).1⟩ ⟨t2, e, hte, hpe⟩
  have hpre : removeprefixPy "```json".data consumed = consumed := by
    rw [hct]
    exact removeprefixPy_backtick_free (valueStart_facts hvs).2.2.1
  have hsuf : removesuffixPy "```".data consumed = consumed := by
    rw [hte]
    exact removesuffixPy_backtick_free hbe
  rw [cleanJsonL, hstrip, hpre, hsuf]
  exact loadsL_consumed ⟨c, t, hct, hvs⟩ hrep

theorem cleanParse_fenced {w1 w2 cs : List Char} {v : Json}
    (hw1 : ∀ c ∈ w1, pyIsSpace c = true) (hw2 : ∀ c ∈ w2, pyIsSpace c = true)
    (h : loadsL cs = some v) :
    loadsL (cleanJsonL (w1 ++ ("```json".data ++ ('\n' :: (cs ++ ['\n'])) ++ "```".data) ++ w2))
      = some v := by
  obtain ⟨ws0, consumed, ws1, hsplit, hws0, hws1, hhead, hlast, hrep⟩ := loadsL_decomp h
  obtain ⟨c, t, hct, hvs⟩ := hhead
  have hstrip : pyStripL (w1 ++ ("```json".data ++ ('\n' :: (cs ++ ['\n'])) ++ "```".data) ++ w2)
      = "```json".data ++ ('\n' :: (cs ++ ['\n'])) ++ "```".data := by
    refine pyStripL_spec hw1 hw2
      ⟨'`', "``json".data ++ (('\n' :: (cs ++ ['\n'])) ++ "```".data), ?_, by decide⟩
      ⟨"```json".data ++ (('\n' :: (cs ++ ['\n'])) ++ "``".data), '`', ?_, by decide⟩
    · simp [show ("```json".data : List Char) = '`' :: "``json".data from rfl]
    · simp [show ("```".data : List Char) = "``".data ++ ['`'] from rfl]
  have hpre : removeprefixPy "```json".data
      ("```json".data ++ ('\n' :: (cs ++ ['\n'])) ++ "```".data) =
      ('\n' :: (cs ++ ['\n'])) ++ "```".data := by
    rw [List.append_assoc]
    exact removeprefixPy_append _ _
  have hsuf : removesuffixPy "```".data (('\n' :: (cs ++ ['\n'])) ++ "```".data) =
      '\n' :: (cs ++ ['\n']) :=
    removesuffixPy_append _ _
  rw [cleanJsonL, hstrip, hpre, hsuf]
  have hsk : skipWs ('\n' :: (cs ++ ['\n'])) = consumed ++ (ws1 ++ ['\n']) := by
    rw [show skipWs ('\n' :: (cs ++ ['\n'])) = skipWs (cs ++ ['\n']) from by
      simp [skipWs, isJsonWs]]
    rw [hsplit]
    rw [show (ws0 ++ (consumed ++ ws1)) ++ ['\n'] = ws0 ++ (consumed ++ (ws1 ++ ['\n'])) from by
      simp]
    rw [skipWs_append_all hws0]
    rw [show consumed ++ (ws1 ++ ['\n']) = c :: (t ++ (ws1 ++ ['\n'])) from by rw [hct]; simp]
    exact skipWs_cons_false (valueStart_facts hvs).2.1
  have hfuel : consumed.length < cs.length + 3 := by
    have : cs.length = ws0.length + (consumed.length + ws1.length) := by
      rw [hsplit]; simp
    omega
  have hst : extStopper (ws1 ++ ['\n']) := extStopper_ws_append hws1 (by decide) []
  have hp := hrep (cs.length + 3) (ws1 ++ ['\n']) hfuel hst
  have hw : skipWs (ws1 ++ ['\n']) = [] := skipWs_all (by
    intro d hd
    rcases List.mem_append.mp hd with hd1 | hd2
    · exact hws1 d hd1
    · simp at hd2
      subst hd2
      decide)
  simp [loadsL, hsk, hp, hw]

/-! ## Schema validation facts -/

theorem validate_renderItem (it : OutfitItem) :
    validateOutfitItem (renderItem it) = Except.ok it := by
  simp [renderItem, validateOutfitItem, objGet]

theorem validate_renderItemList (its : List OutfitItem) :
    validateItemList (its.map renderItem) = Except.ok its := by
  induction its with
  | nil => rfl
  | cons it rest ih => simp [validateItemList, validate_renderItem, ih]

theorem validate_renderOutfit (o : Outfit) :
    validateOutfit (renderOutfit o) = Except.ok o := by
  simp [renderOutfit, validateOutfit, objGet, validate_renderItemList]

theorem validate_renderOutfitList (outs : List Outfit) :
    validateOutfitList (outs.map renderOutfit) = Except.ok outs := by
  induction outs with
  | nil => rfl
  | cons o rest ih => simp [validateOutfitList, validate_renderOutfit, ih]

theorem validate_renderResponse (outs : List Outfit) :
    validateOutfits (Json.arr (outs.map renderOutfit)) = Except.ok ⟨outs⟩ := by
  simp [validateOutfits, validate_renderOutfitList]

theorem validateItem_spec {j : Json} {it : OutfitItem}
    (h : validateOutfitItem j = Except.ok it) : specItem j = true := by
  cases j <;> simp [validateOutfitItem] at h
  next kvs =>
  rcases hn : objGet kvs "name" with _ | jn
  · simp only [hn] at h
    exact absurd h (by simp)
  · rcases jn with _ | b | nm | n | xs2 | kvs2
    · simp only [hn] at h
      exact absurd h (by simp)
    · simp only [hn] at h
      exact absurd h (by simp)
    · simp only [hn] at h
      exact absurd h (by simp)
    · simp only [hn] at h
      rcases hp : objGet kvs "productId" with _ | jp
      · simp only [hp] at h
        exact absurd h (by simp)
      · rcases jp with _ | b2 | nm2 | p | xs3 | kvs3
        · simp only [hp] at h
          exact absurd h (by simp)
        · simp only [hp] at h
          exact absurd h (by simp)
        · simp only [hp] at h
          exact absurd h (by simp)
        · simp [specItem, hn, hp]
        · simp only [hp] at h
          exact absurd h (by simp)
        · simp only [hp] at h
          exact absurd h (by simp)
    · simp only [hn] at h
      exact absurd h (by simp)
    · simp only [hn] at h
      exact absurd h (by simp)

theorem validateItemList_spec {xs : List Json} {its : List OutfitItem}
    (h : validateItemList xs = Except.ok its) : xs.all specItem = true := by
  induction xs generalizing its with
  | nil => rfl
  | cons x rest ih =>
    rw [validateItemList] at h
    rcases hv : validateOutfitItem x with e | it1
    · simp only [hv] at h
      exact absurd h (by simp)
    simp only [hv] at h
    rcases hvs : validateItemList rest with e | its1
    · simp only [hvs] at h
      exact absurd h (by simp)
    simp only [hvs] at h
    rw [List.all_cons, Bool.and_eq_true]
    exact ⟨validateItem_spec hv, ih hvs⟩

theorem validateOutfit_spec {j : Json} {o : Outfit}
    (h : validateOutfit j = Except.ok o) : specOutfit j = true := by
  cases j <;> simp [validateOutfit] at h
  next kvs =>
  rcases hn : objGet kvs "outfitId" with _ | jn
  · simp only [hn] at h
    exact absurd h (by simp)
  · rcases jn with _ | b | nm | oid | xs2 | kvs2
    · simp only [hn] at h
      exact absurd h (by simp)
    · simp only [hn] at h
      exact absurd h (by simp)
    · simp only [hn] at h
      exact absurd h (by simp)
    · simp only [hn] at h
      rcases hp : objGet kvs "items" with _ | jp
      · simp only [hp] at h
        exact absurd h (by simp)
      · rcases jp with _ | b2 | nm2 | s2 | xs | kvs3
        · simp only [hp] at h
          exact absurd h (by simp)
        · simp only [hp] at h
          exact absurd h (by simp)
        · simp only [hp] at h
          exact absurd h (by simp)
        · simp only [hp] at h
          exact absurd h (by simp)
        · simp only [hp] at h
          rcases hvs : validateItemList xs with e | its
          · simp only [hvs] at h
            exact absurd h (by simp)
          · simp [specOutfit, hn, hp, validateItemList_spec hvs]
        · simp only [hp] at h
          exact absurd h (by simp)
    · simp only [hn] at h
      exact absurd h (by simp)
    · simp only [hn] at h
      exact absurd h (by simp)

theorem validateOutfitList_spec {os : List Json} {outs : List Outfit}
    (h : validateOutfitList os = Except.ok outs) : os.all specOutfit = true := by
  induction os generalizing outs with
  | nil => rfl
  | cons o rest ih =>
    rw [validateOutfitList] at h
    rcases hv : validateOutfit o with e | ov
    · simp only [hv] at h
      exact absurd h (by simp)
    simp only [hv] at h
    rcases hvs : validateOutfitList rest with e | outs1
    · simp only [hvs] at h
      exact absurd h (by simp)
    simp only [hvs] at h
    rw [List.all_cons, Bool.and_eq_true]
    exact ⟨validateOutfit_spec hv, ih hvs⟩

theorem validateOutfits_spec {j : Json} {r : OutfitsResponse}
    (h : validateOutfits j = Except.ok r) : specConforms j = true := by
  cases j <;> simp [validateOutfits] at h
  next os =>
  rcases hvs : validateOutfitList os with e | outs
  · simp only [hvs] at h
    exact absurd h (by simp)
  simp [specConforms, validateOutfitList_spec hvs]

/-! ## Key inventory of rendered responses -/

theorem renderItem_keys (it : OutfitItem) : hasKeyJ "description" (renderItem it) = false := by
  simp [renderItem, hasKeyJ, hasKeyKvs]

theorem hasKeyArr_map_item (its : List OutfitItem) :
    hasKeyArr "description" (its.map renderItem) = false := by
  induction its with
  | nil => rfl
  | cons it rest ih => simp [hasKeyArr, renderItem_keys, ih]

theorem renderOutfit_keys (o : Outfit) : hasKeyJ "description" (renderOutfit o) = false := by
  simp [renderOutfit, hasKeyJ, hasKeyKvs, hasKeyArr_map_item]

theorem hasKeyArr_map_outfit (os : List Outfit) :
    hasKeyArr "description" (os.map renderOutfit) = false := by
  induction os with
  | nil => rfl
  | cons o rest ih => simp [hasKeyArr, renderOutfit_keys, ih]

theorem renderResponse_keys (r : OutfitsResponse) :
    hasKeyJ "description" (renderResponse r) = false := by
  simp [renderResponse, hasKeyJ, hasKeyKvs, hasKeyArr_map_outfit]

/-! ## Prompt containment helpers -/

theorem infix_extend {α : Type} {l y : List α} (h : l <:+: y) (x z : List α) :
    l <:+: x ++ (y ++ z) := by
  obtain ⟨s, t, hst⟩ := h
  exact ⟨x ++ s, t ++ z, by rw [← hst]; simp⟩

theorem entry_contains (it : WishlistItem) :
    (jsonDumpStr it.name).data <:+: (dumpItemEntry it).data ∧
    (jsonDumpStr it.description).data <:+: (dumpItemEntry it).data ∧
    (jsonDumpStr it.productId).data <:+: (dumpItemEntry it).data := by
  refine ⟨⟨"\x7b\n    \"name\": ".data,
      (",\n    \"description\": " ++ jsonDumpStr it.description ++
        ",\n    \"productId\": " ++ jsonDumpStr it.productId ++ "\n  \x7d").data, ?_⟩,
    ⟨("\x7b\n    \"name\": " ++ jsonDumpStr it.name ++ ",\n    \"description\": ").data,
      (",\n    \"productId\": " ++ jsonDumpStr it.productId ++ "\n  \x7d").data, ?_⟩,
    ⟨("\x7b\n    \"name\": " ++ jsonDumpStr it.name ++ ",\n    \"description\": " ++
        jsonDumpStr it.description ++ ",\n    \"productId\": ").data,
      ("\n  \x7d" : String).data, ?_⟩⟩ <;>
    simp [dumpItemEntry, String.data_append]

theorem entries_contains {it : WishlistItem} {items : List WishlistItem} (h : it ∈ items) :
    (dumpItemEntry it).data <:+: (dumpEntries items).data := by
  induction items with
  | nil => exact absurd h (List.not_mem_nil it)
  | cons a rest ih =>
    rcases List.mem_cons.mp h with rfl | h2
    · rcases rest with _ | ⟨b, rest2⟩
      · exact ⟨[], [], by simp [dumpEntries]⟩
      · exact ⟨[], (",\n  " ++ dumpEntries (b :: rest2)).data,
          by simp [dumpEntries, String.data_append]⟩
    · rcases rest with _ | ⟨b, rest2⟩
      · exact absurd h2 (List.not_mem_nil it)
      · obtain ⟨s1, t1, hst⟩ := ih h2
        refine ⟨(dumpItemEntry a ++ ",\n  ").data ++ s1, t1, ?_⟩
        rw [List.append_assoc, List.append_assoc, ← List.append_assoc s1, hst]
        simp [dumpEntries, String.data_append]

theorem entries_in_prompt {items : List WishlistItem} (hne : items ≠ []) :
    (dumpEntries items).data <:+: (buildPrompt items).data := by
  rcases items with _ | ⟨a, rest⟩
  · exact absurd rfl hne
  exact ⟨promptPrefix.data ++ "[\n  ".data,
    "\n]".data ++ promptSuffix.data,
    by simp [buildPrompt, dumpWishlist, String.data_append]⟩

/-! ## Backtick-headed input is never a value -/

theorem parseValue_backtick (g : Nat) (t : List Char) : parseValue g ('`' :: t) = none := by
  cases g with
  | zero => simp [parseValue]
  | succ f =>
    have hlex : lexNumber ('`' :: t) = none := by
      rw [lexNumber.eq_def]
      split
      · next r heq =>
        injection heq with h1 _
        exact absurd h1.symm (by decide)
      · simp [lexInt]
    simp [parseValue, Char.reduceEq, reduceIte, hlex]

theorem cleanParse_plainFence (s : String) :
    cleanAndParse ("```\n" ++ s ++ "\n```") = none := by
  rw [cleanAndParse]
  have hdata : ("```\n" ++ s ++ "\n```").data =
      ('`' :: '`' :: '`' :: '\n' :: (s.data ++ ['\n'])) ++ "```".data := by
    simp [String.data_append, show ("```\n" : String).data = ['`', '`', '`', '\n'] from rfl,
      show ("\n```" : String).data = '\n' :: "```".data from rfl]
  rw [hdata, cleanJsonL]
  have hstrip : pyStripL (('`' :: '`' :: '`' :: '\n' :: (s.data ++ ['\n'])) ++ "```".data) =
      ('`' :: '`' :: '`' :: '\n' :: (s.data ++ ['\n'])) ++ "```".data := by
    have h0 := pyStripL_spec (a := []) (b := [])
      (x := ('`' :: '`' :: '`' :: '\n' :: (s.data ++ ['\n'])) ++ "```".data)
      (fun c hc => absurd hc (List.not_mem_nil c)) (fun c hc => absurd hc (List.not_mem_nil c))
      ⟨'`', ('`' :: '`' :: '\n' :: (s.data ++ ['\n'])) ++ "```".data, rfl, by decide⟩
      ⟨('`' :: '`' :: '`' :: '\n' :: (s.data ++ ['\n'])) ++ ['`', '`'], '`',
        by simp [show ("```".data : List Char) = ['`', '`'] ++ ['`'] from rfl], by decide⟩
    simpa using h0
  rw [hstrip]
  have hnp : ("```json".data).isPrefixOf
      (('`' :: '`' :: '`' :: '\n' :: (s.data ++ ['\n'])) ++ "```".data) = false := by
    simp [show ("```json".data : List Char) = ['`', '`', '`', 'j', 's', 'o', 'n'] from rfl,
      List.isPrefixOf]
  rw [show removeprefixPy "```json".data
      (('`' :: '`' :: '`' :: '\n' :: (s.data ++ ['\n'])) ++ "```".data) =
      ('`' :: '`' :: '`' :: '\n' :: (s.data ++ ['\n'])) ++ "```".data from by
    simp [removeprefixPy, hnp]]
  rw [removesuffixPy_append]
  rw [loadsL, skipWs_cons_false (by decide), parseValue_backtick]

/-! ## The claims -/

/-- C1: for every syntactically valid JSON string, wrapping it in the
recognized fence pair (leading "```json", trailing "```", surrounding
whitespace) parses through cleanAndParse to the same value as the bare
string does; stripping is applied at most once. -/
theorem cleanAndParse_fenced_eq_plain (s w1 w2 : String) (v : Json)
    (hw1 : ∀ c ∈ w1.data, pyIsSpace c = true)
    (hw2 : ∀ c ∈ w2.data, pyIsSpace c = true)
    (h : loads s = some v) :
    cleanAndParse (w1 ++ "```json\n" ++ s ++ "\n```" ++ w2) = some v ∧
    cleanAndParse s = some v := by
  constructor
  · rw [cleanAndParse]
    have hdata : (w1 ++ "```json\n" ++ s ++ "\n```" ++ w2).data =
        w1.data ++ ("```json".data ++ ('\n' :: (s.data ++ ['\n'])) ++ "```".data) ++ w2.data := by
      simp [String.data_append,
        show ("```json\n" : String).data = "```json".data ++ ['\n'] from rfl,
        show ("\n```" : String).data = '\n' :: "```".data from rfl]
    rw [hdata]
    exact cleanParse_fenced hw1 hw2 h
  · exact cleanParse_plain h

theorem cleanAndParse_fenced_eq_plain_witness :
    cleanAndParse "```json\n[\x7b\"outfitId\":\"o1\",\"items\":[]\x7d]\n```" =
      some (Json.arr [Json.obj [("outfitId", Json.str "o1"), ("items", Json.arr [])]]) ∧
    cleanAndParse "[\x7b\"outfitId\":\"o1\",\"items\":[]\x7d]" =
      some (Json.arr [Json.obj [("outfitId", Json.str "o1"), ("items", Json.arr [])]]) :=
  cleanAndParse_fenced_eq_plain "[\x7b\"outfitId\":\"o1\",\"items\":[]\x7d]" "" ""
    (Json.arr [Json.obj [("outfitId", Json.str "o1"), ("items", Json.arr [])]])
    (fun c hc => absurd hc (by simp))
    (fun c hc => absurd hc (by simp))
    rfl

/-- C2: a provider reply whose text is exactly a schema-conforming JSON
array is returned unchanged under the outfits key with HTTP 200; no
post-processing, re-ranking, or deduplication happens. -/
theorem build_outfits_success_passthrough (raw : String) (outs : List Outfit)
    (h : loads raw = some (Json.arr (outs.map renderOutfit))) :
    handle (ProviderOutcome.success [raw]) =
      (200, Json.obj [("outfits", Json.arr (outs.map renderOutfit))]) := by
  have hcp : cleanAndParse raw = some (Json.arr (outs.map renderOutfit)) :=
    cleanParse_plain h
  simp [handle, build_outfits, hcp, validate_renderResponse, httpResponse, renderResponse]

theorem build_outfits_success_passthrough_witness :
    handle (ProviderOutcome.success
      ["[\x7b\"outfitId\":\"outfit_1\",\"items\":[\x7b\"name\":\"Classic Black T-shirt\",\"productId\":\"B-TS-001\"\x7d]\x7d]"]) =
      (200, Json.obj [("outfits", Json.arr [Json.obj [("outfitId", Json.str "outfit_1"),
        ("items", Json.arr [Json.obj [("name", Json.str "Classic Black T-shirt"),
          ("productId", Json.str "B-TS-001")]])]])]) :=
  build_outfits_success_passthrough
    "[\x7b\"outfitId\":\"outfit_1\",\"items\":[\x7b\"name\":\"Classic Black T-shirt\",\"productId\":\"B-TS-001\"\x7d]\x7d]"
    [⟨"outfit_1", [⟨"Classic Black T-shirt", "B-TS-001"⟩]⟩] rfl

/-- C3: a provider reply that is not valid JSON after cleaning makes the
handler fail with the JSON-decode (MalformedOutput) message under HTTP
500; validation is never reached. -/
theorem build_outfits_malformed_output (raw : String)
    (h : cleanAndParse raw = none) :
    handle (ProviderOutcome.success [raw]) =
      (500, Json.obj [("detail", Json.str decodeFailDetail)]) := by
  simp [handle, build_outfits, h, httpResponse]

theorem build_outfits_malformed_output_witness :
    handle (ProviderOutcome.success ["not json"]) =
      (500, Json.obj [("detail", Json.str decodeFailDetail)]) :=
  build_outfits_malformed_output "not json" rfl

/-- C4: a provider reply that parses as JSON but does not conform to the
OutfitsResponse schema makes the handler fail with HTTP 500 and the
SchemaMismatch message carrying the validation diagnostic. -/
theorem build_outfits_schema_mismatch (raw : String) (j : Json)
    (hparse : cleanAndParse raw = some j) (hbad : specConforms j = false) :
    ∃ diag, handle (ProviderOutcome.success [raw]) =
      (500, Json.obj [("detail", Json.str (schemaFailPrefix ++ diag))]) := by
  rcases hval : validateOutfits j with diag | r
  · exact ⟨diag, by simp [handle, build_outfits, hparse, hval, httpResponse]⟩
  · rw [validateOutfits_spec hval] at hbad
    exact absurd hbad (by simp)

theorem build_outfits_schema_mismatch_witness :
    ∃ diag, handle (ProviderOutcome.success ["[\x7b\"outfitId\":\"o1\"\x7d]"]) =
      (500, Json.obj [("detail", Json.str (schemaFailPrefix ++ diag))]) :=
  build_outfits_schema_mismatch "[\x7b\"outfitId\":\"o1\"\x7d]"
    (Json.arr [Json.obj [("outfitId", Json.str "o1")]]) rfl rfl

/-- C5: when the provider returns zero candidate completions, the
handler fails with HTTP 500 and the empty-response message, and never
proceeds to parsing or validation. -/
theorem build_outfits_empty_provider :
    handle (ProviderOutcome.success []) =
      (500, Json.obj [("detail", Json.str ("500: " ++ emptyRespDetail))]) := rfl

/-- C6: when the outbound provider call raises, the handler catches the
exception and fails with HTTP 500 carrying the message derived from the
exception. -/
theorem build_outfits_provider_call_failed (msg : String) :
    handle (ProviderOutcome.raise msg) =
      (500, Json.obj [("detail", Json.str msg)]) := rfl

theorem build_outfits_provider_call_failed_witness :
    handle (ProviderOutcome.raise "Connection error.") =
      (500, Json.obj [("detail", Json.str "Connection error.")]) :=
  build_outfits_provider_call_failed "Connection error."

/-- C7: for every non-empty wishlist, the prompt contains the
JSON-serialized name, description, and productId of every item, and
always contains the fixed rules text, the output-schema text, and the
worked example. -/
theorem buildPrompt_contains_items_and_template (items : List WishlistItem)
    (hne : items ≠ []) :
    (∀ it ∈ items,
      (jsonDumpStr it.name).data <:+: (buildPrompt items).data ∧
      (jsonDumpStr it.description).data <:+: (buildPrompt items).data ∧
      (jsonDumpStr it.productId).data <:+: (buildPrompt items).data) ∧
    promptRules.data <:+: (buildPrompt items).data ∧
    promptSchema.data <:+: (buildPrompt items).data ∧
    promptExample.data <:+: (buildPrompt items).data := by
  have hwp := entries_in_prompt hne
  refine ⟨fun it hit => ?_, ?_, ?_, ?_⟩
  · obtain ⟨hn, hd, hp⟩ := entry_contains it
    have he := (entries_contains hit).trans hwp
    exact ⟨hn.trans he, hd.trans he, hp.trans he⟩
  · exact ⟨promptIntro.data,
      (promptSchema ++ promptExample ++ promptLeadIn ++ dumpWishlist items ++ promptSuffix).data,
      by simp [buildPrompt, promptPrefix, String.data_append]⟩
  · exact ⟨(promptIntro ++ promptRules).data,
      (promptExample ++ promptLeadIn ++ dumpWishlist items ++ promptSuffix).data,
      by simp [buildPrompt, promptPrefix, String.data_append]⟩
  · exact ⟨(promptIntro ++ promptRules ++ promptSchema).data,
      (promptLeadIn ++ dumpWishlist items ++ promptSuffix).data,
      by simp [buildPrompt, promptPrefix, String.data_append]⟩

theorem buildPrompt_contains_witness :
    (∀ it ∈ ([⟨"a", "b", "c"⟩] : List WishlistItem),
      (jsonDumpStr it.name).data <:+: (buildPrompt [⟨"a", "b", "c"⟩]).data ∧
      (jsonDumpStr it.description).data <:+: (buildPrompt [⟨"a", "b", "c"⟩]).data ∧
      (jsonDumpStr it.productId).data <:+: (buildPrompt [⟨"a", "b", "c"⟩]).data) ∧
    promptRules.data <:+: (buildPrompt [⟨"a", "b", "c"⟩]).data ∧
    promptSchema.data <:+: (buildPrompt [⟨"a", "b", "c"⟩]).data ∧
    promptExample.data <:+: (buildPrompt [⟨"a", "b", "c"⟩]).data :=
  buildPrompt_contains_items_and_template [⟨"a", "b", "c"⟩] (by simp)

/-- C8: whenever the handler answers with HTTP 200, the serialized body
never carries a description key anywhere: item objects expose only name
and productId, outfit objects only outfitId and items. -/
theorem success_response_no_description (p : ProviderOutcome) (body : Json)
    (h : handle p = (200, body)) :
    hasKeyJ "description" body = false := by
  rw [handle] at h
  cases hb : build_outfits p with
  | ok r =>
    rw [hb] at h
    simp only [httpResponse] at h
    injection h with h1 h2
    rw [← h2]
    exact renderResponse_keys r
  | err st d =>
    rw [hb] at h
    simp only [httpResponse] at h
    injection h with h1 h2
    rw [← h2]
    have hne : ("detail" : String) ≠ "description" := by decide
    simp [hasKeyJ, hasKeyKvs, hne]

theorem success_response_no_description_witness :
    handle (ProviderOutcome.success ["[]"]) = (200, Json.obj [("outfits", Json.arr [])]) ∧
    hasKeyJ "description" (Json.obj [("outfits", Json.arr [])]) = false :=
  ⟨rfl, success_response_no_description (ProviderOutcome.success ["[]"])
    (Json.obj [("outfits", Json.arr [])]) rfl⟩

/-- C9: a reply wrapping valid JSON in plain triple-backtick fences
without the json language tag is not stripped of its leading fence, so
the handler fails with the JSON-decode (MalformedOutput) message even
though the interior body is valid JSON. -/
theorem plain_fence_not_stripped (s : String) (v : Json)
    (h : loads s = some v) :
    handle (ProviderOutcome.success ["```\n" ++ s ++ "\n```"]) =
      (500, Json.obj [("detail", Json.str decodeFailDetail)]) := by
  simp [handle, build_outfits, cleanParse_plainFence s, httpResponse]

theorem plain_fence_not_stripped_witness :
    handle (ProviderOutcome.success ["```\n[]\n```"]) =
      (500, Json.obj [("detail", Json.str decodeFailDetail)]) :=
  plain_fence_not_stripped "[]" (Json.arr []) rfl

/-- C10: the bare reply of an empty JSON array, and its fence-wrapped
form, are both accepted as schema-valid and answered with HTTP 200 and
an empty outfits list, not with any error. -/
theorem empty_outfits_list_accepted :
    handle (ProviderOutcome.success ["[]"]) =
      (200, Json.obj [("outfits", Json.arr [])]) ∧
    handle (ProviderOutcome.success ["```json\n[]\n```"]) =
      (200, Json.obj [("outfits", Json.arr [])]) :=
  ⟨rfl, rfl⟩

end OutfitBuilder
